import Mathlib

/-!
Verification of the Ragelang execution engine against its specification.

The definitions below are shallow embeddings of the TypeScript sources:
  * `Falling` embeds `FallingProcessor` (the falling-character preprocessor);
  * `Lex` embeds `Lexer` (lexer.ts);
  * `Rage` embeds the runtime value model, `Environment`, and the parts of
    `Interpreter` (interpreter.ts) and the pattern grammar (ast.ts) that the
    verified properties are about.

Modelling conventions, stated once:
  * JavaScript numbers are IEEE-754 doubles; they are modelled as `Int`.
    Every concrete program evaluated in a theorem below uses only small
    integer values, on which double arithmetic is exact and agrees with `Int`.
  * Mutable JS objects reached through references (environments, arrays,
    prototypes, functions) are modelled as arenas inside an explicit state,
    with values holding indices, so aliasing and mutation behave as in the
    source.  Enum-variant instances are stored inline because no verified
    property mutates or identity-compares them.
  * JS `Map` objects are modelled as association lists with the JS `Map`
    update discipline (replace in place, else append), which preserves the
    source's insertion-order iteration.
  * Host side effects (canvas, audio, input) are outside the core; native
    functions that only produce host effects are modelled as returning
    `null` without touching interpreter state, exactly as they do from the
    interpreter's point of view.
  * Recursion in the source that is bounded by the JS call stack is modelled
    with an explicit fuel parameter so that every definition is executable;
    theorems are stated either for every fuel or for a sufficient fuel.
-/

namespace Falling

/-- A grid is a list of rows of characters, exactly the `string[][]` of
`FallingProcessor`.  Out-of-range reads yield the blank `' '`, matching the
rectangular padded grid built by the constructor. -/
abbrev Grid := List (List Char)

def cellAt (g : Grid) (r c : Nat) : Char := (g.getD r []).getD c ' '

def setCell (g : Grid) (r c : Nat) (ch : Char) : Grid :=
  g.set r ((g.getD r []).set c ch)

/-- One row of `findFoundation`: scan left to right, each `"` toggles the
in-string flag, and an unquoted `#` marks the row as foundation. -/
def rowHasFoundation : List Char → Bool → Bool
  | [], _ => false
  | ch :: rest, inStr =>
    if ch = '"' then rowHasFoundation rest (!inStr)
    else if ch = '#' && !inStr then true
    else rowHasFoundation rest inStr

/-- Scan rows bottom-to-top; the argument is the number of rows left to
check, so row `n` is checked before row `n - 1`. -/
def findFoundationGo (g : Grid) : Nat → Option Nat
  | 0 => none
  | n + 1 =>
    if rowHasFoundation (g.getD n []) false then some n
    else findFoundationGo g n

/-- `findFoundation`: index of the bottommost row containing an unquoted
`#`, or `none` (the source's `-1`). -/
def findFoundation (g : Grid) : Option Nat := findFoundationGo g g.length

/-- `isSupported` / `isSupportedInternal`, with the `checkingStack` cycle
guard made explicit: a position already on the stack is reported
unsupported.  The memo cache of the source is omitted: it is cleared
whenever the grid changes, so it never alters results, only cost.
The fuel bounds the recursion depth; every recursive call moves one row
down, so fuel `g.length + 1` can never run out (see
`isSupportedAux_fuel_irrelevant`-style reasoning in the proofs). -/
def isSupportedAux (g : Grid) (w : Nat) (f : Option Nat) :
    Nat → List (Nat × Nat) → Nat → Nat → Bool
  | 0, _, _, _ => false
  | fuel + 1, stk, r, c =>
    if (r, c) ∈ stk then false
    else if cellAt g r c = ' ' then false
    else if f = some r && cellAt g r c = '#' then true
    else
      match f with
      | none => false
      | some fr =>
        if fr ≤ r then false
        else if r + 1 < g.length then
          let stk2 := (r, c) :: stk
          ((decide (0 < c) && decide (c - 1 < w) && cellAt g (r+1) (c-1) != ' '
              && isSupportedAux g w f fuel stk2 (r+1) (c-1))
           || (decide (c < w) && cellAt g (r+1) c != ' '
              && isSupportedAux g w f fuel stk2 (r+1) c)
           || (decide (c + 1 < w) && cellAt g (r+1) (c+1) != ' '
              && isSupportedAux g w f fuel stk2 (r+1) (c+1)))
        else false

def isSupported (g : Grid) (w : Nat) (f : Option Nat) (r c : Nat) : Bool :=
  isSupportedAux g w f (g.length + 1) [] r c

/-- `findLandingRow`: fall straight down column `col` from `startRow`;
land one row above the first non-blank cell, or fall out (`none`). -/
def findLandingGo (g : Grid) (col : Nat) : Nat → Nat → Option Nat
  | 0, _ => none
  | fuel + 1, row =>
    if g.length ≤ row then none
    else if cellAt g row col != ' ' then some (row - 1)
    else findLandingGo g col fuel (row + 1)

def findLandingRow (g : Grid) (startRow col : Nat) : Option Nat :=
  findLandingGo g col (g.length + 1) (startRow + 1)

/-- One row of the fixed-point loop body: collect the unsupported non-blank
cells of row `r`, clear them all, then drop each one independently to its
landing row.  Returns the new grid and whether anything fell. -/
def sweepRow (g : Grid) (w f r : Nat) : Grid × Bool :=
  let toFall := ((List.range w).filter
      (fun c => cellAt g r c != ' ' && !(isSupported g w (some f) r c))).map
      (fun c => (c, cellAt g r c))
  if toFall.isEmpty then (g, false)
  else
    let cleared := toFall.foldl (fun acc p => setCell acc r p.1 ' ') g
    let placed := toFall.foldl (fun acc p =>
        match findLandingRow acc r p.1 with
        | some lr => if lr < acc.length then setCell acc lr p.1 p.2 else acc
        | none => acc) cleared
    (placed, true)

/-- Process rows `r, r - 1, …, 0` (bottom-to-top order of the source). -/
def sweepDown : Nat → Grid → Nat → Nat → Grid × Bool
  | 0, g, w, f => sweepRow g w f 0
  | r + 1, g, w, f =>
    let p1 := sweepRow g w f (r + 1)
    let p2 := sweepDown r p1.1 w f
    (p2.1, p1.2 || p2.2)

/-- One full bottom-to-top sweep over the rows strictly above the
foundation row `f`. -/
def sweep (g : Grid) (w f : Nat) : Grid × Bool :=
  match f with
  | 0 => (g, false)
  | fr + 1 => sweepDown fr g w (fr + 1)

/-- The `while (changed && iterations < maxIterations)` loop of
`process()`.  Returns the final grid and the number of sweeps performed. -/
def processLoop : Nat → Grid → Nat → Nat → Grid × Nat
  | 0, g, _, _ => (g, 0)
  | fuel + 1, g, w, f =>
    let p := sweep g w f
    if p.2 then
      let q := processLoop fuel p.1 w f
      (q.1, q.2 + 1)
    else (p.1, 1)

/-- `source.split("\n")`. -/
def splitLines : List Char → List (List Char)
  | [] => [[]]
  | c :: rest =>
    match splitLines rest with
    | [] => [[c]]
    | l :: ls => if c = '\n' then [] :: l :: ls else (c :: l) :: ls

def gridWidth (lines : List (List Char)) : Nat :=
  lines.foldl (fun m l => max m l.length) 0

def padRow (w : Nat) (l : List Char) : List Char :=
  l ++ List.replicate (w - l.length) ' '

/-- The constructor: split into lines and pad to a rectangle of blanks. -/
def buildGrid (s : List Char) : Grid :=
  let lines := splitLines s
  lines.map (padRow (gridWidth lines))

/-- The whitespace class of the JS regex `\s` (used by `gridToString`'s
`replace(/\s+$/, "")`): the ECMAScript WhiteSpace characters (TAB, VT,
FF, SP, NBSP, ZWNBSP and the `Space_Separator` category U+1680,
U+2000–U+200A, U+202F, U+205F, U+3000) together with the LineTerminators
(LF, CR, U+2028, U+2029). -/
def isJsSpace (c : Char) : Bool :=
  c == ' ' || c == '\t' || c == '\r' || c == '\n'
    || c == Char.ofNat 11 || c == Char.ofNat 12
    || c == Char.ofNat 0x00A0 || c == Char.ofNat 0x1680
    || (Char.ofNat 0x2000 ≤ c && c ≤ Char.ofNat 0x200A)
    || c == Char.ofNat 0x2028 || c == Char.ofNat 0x2029
    || c == Char.ofNat 0x202F || c == Char.ofNat 0x205F
    || c == Char.ofNat 0x3000 || c == Char.ofNat 0xFEFF

/-- Per-row `replace(/\s+$/, "")` of `gridToString`. -/
def trimEndRow (l : List Char) : List Char :=
  (l.reverse.dropWhile isJsSpace).reverse

def joinLines : List (List Char) → List Char
  | [] => []
  | [l] => l
  | l :: ls => l ++ '\n' :: joinLines ls

/-- `gridToString`: trim trailing whitespace per row and join with
newlines. -/
def gridToString (g : Grid) : List Char := joinLines (g.map trimEndRow)

/-- `process()` together with the number of sweep iterations performed. -/
def processCounted (s : List Char) : List Char × Nat :=
  let g := buildGrid s
  match findFoundation g with
  | none => ([], 0)
  | some f =>
    let w := gridWidth (splitLines s)
    let p := processLoop (g.length * w) g w f
    (gridToString p.1, p.2)

/-- `process()`: empty output when there is no foundation, otherwise run
the fixed-point simulation and serialize. -/
def process (s : List Char) : List Char := (processCounted s).1

def processIterations (s : List Char) : Nat := (processCounted s).2

def processStr (s : String) : String := String.mk (process s.data)

end Falling

namespace Lex

/-- Typed literal payload of a token.  Fractional / exponent / malformed
numeric literals denote IEEE-754 values uniquely determined by the lexeme;
they are kept abstract as `numOther` since no verified property depends on
such a value.  Integer-valued literals are exact. -/
inductive TokLit where
  | nolit
  | str (s : String)
  | bool (b : Bool)
  | num (n : Int)
  | numOther (lexeme : String)
deriving DecidableEq, Repr

/-- A token.  Token types are the enum constant names of `tokens.ts`.
The `column` field of the source is omitted: no verified property and no
error message depends on it. -/
structure Token where
  ttype : String
  lexeme : String
  lit : TokLit
  line : Nat
deriving DecidableEq, Repr

/-- The `KEYWORDS` table of `tokens.ts`. -/
def keywordType : String → Option String
  | "draw" => some "DRAW"
  | "update" => some "UPDATE"
  | "fun" => some "FUN"
  | "return" => some "RETURN"
  | "if" => some "IF"
  | "else" => some "ELSE"
  | "loop" => some "LOOP"
  | "break" => some "BREAK"
  | "true" => some "TRUE"
  | "false" => some "FALSE"
  | "prototype" => some "PROTOTYPE"
  | "enum" => some "ENUM"
  | "match" => some "MATCH"
  | "and" => some "AND"
  | "or" => some "OR"
  | _ => none

def isDigitC (c : Char) : Bool := '0' ≤ c && c ≤ '9'

def isAlphaC (c : Char) : Bool :=
  ('a' ≤ c && c ≤ 'z') || ('A' ≤ c && c ≤ 'Z') || c == '_'

def isAlphaNumC (c : Char) : Bool := isAlphaC c || isDigitC c

def isHexDigitC (c : Char) : Bool :=
  isDigitC c || ('a' ≤ c && c ≤ 'f') || ('A' ≤ c && c ≤ 'F')

def digitVal (c : Char) : Nat := c.toNat - '0'.toNat

def hexVal (c : Char) : Nat :=
  if isDigitC c then digitVal c
  else if 'a' ≤ c && c ≤ 'f' then c.toNat - 'a'.toNat + 10
  else c.toNat - 'A'.toNat + 10

def digitsToNat (ds : List Char) : Nat := ds.foldl (fun a c => a * 10 + digitVal c) 0

def hexToNat (ds : List Char) : Nat := ds.foldl (fun a c => a * 16 + hexVal c) 0

def binToNat (ds : List Char) : Nat := ds.foldl (fun a c => a * 2 + digitVal c) 0

def headIs (cs : List Char) (c : Char) : Bool :=
  match cs with
  | x :: _ => x == c
  | [] => false

/-- The body of `string()`: scan for the closing quote, bumping the line
counter at each newline inside the string.  `.error line` is the
unterminated case, carrying the line counter reached at end of input.
On success: the contents, the final line counter, and the number of
characters consumed including the closing quote. -/
def stringScan (line : Nat) : List Char → Except Nat (List Char × Nat × Nat)
  | [] => .error line
  | c :: rest =>
    if c = '"' then .ok ([], line, 1)
    else
      let line2 := if c = '\n' then line + 1 else line
      match stringScan line2 rest with
      | .error l => .error l
      | .ok (content, l, k) => .ok (c :: content, l, k + 1)

/-- The body of `number()` after the first digit `c` has been consumed.
Returns the token literal, the full lexeme, and the count of characters
consumed from `rest`. -/
def numberScan (c : Char) (rest : List Char) : TokLit × List Char × Nat :=
  if c = '0' && (headIs rest 'x' || headIs rest 'X') then
    let x := rest.headD 'x'
    let ds := (rest.drop 1).takeWhile isHexDigitC
    let lexeme := c :: x :: ds
    let lit := if ds.isEmpty then TokLit.numOther (String.mk lexeme)
               else TokLit.num (hexToNat ds)
    (lit, lexeme, 1 + ds.length)
  else if c = '0' && (headIs rest 'b' || headIs rest 'B') then
    let b := rest.headD 'b'
    let ds := (rest.drop 1).takeWhile (fun d => d == '0' || d == '1')
    let lexeme := c :: b :: ds
    let lit := if ds.isEmpty then TokLit.numOther (String.mk lexeme)
               else TokLit.num (binToNat ds)
    (lit, lexeme, 1 + ds.length)
  else
    let ds1 := rest.takeWhile isDigitC
    let rest1 := rest.drop ds1.length
    let frac :=
      match rest1 with
      | '.' :: d :: _ => if isDigitC d then '.' :: (rest1.drop 1).takeWhile isDigitC else []
      | _ => []
    let rest2 := rest1.drop frac.length
    let expo :=
      match rest2 with
      | e :: tail =>
        if e == 'e' || e == 'E' then
          match tail with
          | s :: tail2 =>
            if s == '+' || s == '-' then e :: s :: tail2.takeWhile isDigitC
            else e :: tail.takeWhile isDigitC
          | [] => [e]
        else []
      | [] => []
    let lexeme := c :: ds1 ++ frac ++ expo
    let lit := if frac.isEmpty && expo.isEmpty then TokLit.num (digitsToNat (c :: ds1))
               else TokLit.numOther (String.mk lexeme)
    (lit, lexeme, ds1.length + frac.length + expo.length)

def mkSimple (ttype lexeme : String) (line : Nat) : Token :=
  { ttype := ttype, lexeme := lexeme, lit := .nolit, line := line }

/-- The branches of `scanToken()` other than the string literal; none of
them can fail.  Given the line counter, the just-consumed character `c`
and the remaining input, produce the emitted tokens (zero or one), the new
line counter, and how many characters of `rest` were consumed. -/
def scanOther (line : Nat) (c : Char) (rest : List Char) :
    List Token × Nat × Nat :=
  if c = '(' then ([mkSimple "LPAREN" "(" line], line, 0)
  else if c = ')' then ([mkSimple "RPAREN" ")" line], line, 0)
  else if c = '{' then ([mkSimple "LBRACE" "\x7b" line], line, 0)
  else if c = '}' then ([mkSimple "RBRACE" "\x7d" line], line, 0)
  else if c = '[' then ([mkSimple "LBRACKET" "[" line], line, 0)
  else if c = ']' then ([mkSimple "RBRACKET" "]" line], line, 0)
  else if c = ',' then ([mkSimple "COMMA" "," line], line, 0)
  else if c = '.' then ([mkSimple "DOT" "." line], line, 0)
  else if c = ';' then ([mkSimple "SEMICOLON" ";" line], line, 0)
  else if c = ':' then ([mkSimple "COLON" ":" line], line, 0)
  else if c = '+' then
    if headIs rest '+' then ([mkSimple "PLUS_PLUS" "++" line], line, 1)
    else if headIs rest '=' then ([mkSimple "PLUS_EQUAL" "+=" line], line, 1)
    else ([mkSimple "PLUS" "+" line], line, 0)
  else if c = '-' then
    if headIs rest '-' then ([mkSimple "MINUS_MINUS" "--" line], line, 1)
    else if headIs rest '=' then ([mkSimple "MINUS_EQUAL" "-=" line], line, 1)
    else ([mkSimple "MINUS" "-" line], line, 0)
  else if c = '*' then
    if headIs rest '*' then ([mkSimple "STAR_STAR" "**" line], line, 1)
    else if headIs rest '=' then ([mkSimple "STAR_EQUAL" "*=" line], line, 1)
    else ([mkSimple "STAR" "*" line], line, 0)
  else if c = '/' then
    if headIs rest '/' then
      let t := (rest.drop 1).takeWhile (fun d => d != '\n')
      ([{ ttype := "COMMENT", lexeme := String.mk ('/' :: '/' :: t),
              lit := .nolit, line := line }], line, 1 + t.length)
    else if headIs rest '=' then ([mkSimple "SLASH_EQUAL" "/=" line], line, 1)
    else ([mkSimple "SLASH" "/" line], line, 0)
  else if c = '%' then
    if headIs rest '=' then ([mkSimple "PERCENT_EQUAL" "%=" line], line, 1)
    else ([mkSimple "PERCENT" "%" line], line, 0)
  else if c = '^' then
    if headIs rest '=' then ([mkSimple "CARET_EQUAL" "^=" line], line, 1)
    else ([mkSimple "CARET" "^" line], line, 0)
  else if c = '~' then ([mkSimple "TILDE" "~" line], line, 0)
  else if c = '&' then
    if headIs rest '&' then ([mkSimple "AMPERSAND_AMPERSAND" "&&" line], line, 1)
    else if headIs rest '=' then ([mkSimple "AMPERSAND_EQUAL" "&=" line], line, 1)
    else ([mkSimple "AMPERSAND" "&" line], line, 0)
  else if c = '|' then
    if headIs rest '|' then ([mkSimple "PIPE_PIPE" "||" line], line, 1)
    else if headIs rest '=' then ([mkSimple "PIPE_EQUAL" "|=" line], line, 1)
    else ([mkSimple "PIPE" "|" line], line, 0)
  else if c = '!' then
    if headIs rest '=' then ([mkSimple "BANG_EQUAL" "!=" line], line, 1)
    else ([mkSimple "BANG" "!" line], line, 0)
  else if c = '=' then
    if headIs rest '=' then ([mkSimple "EQUAL_EQUAL" "==" line], line, 1)
    else if headIs rest '>' then ([mkSimple "FAT_ARROW" "=>" line], line, 1)
    else ([mkSimple "EQUAL" "=" line], line, 0)
  else if c = '<' then
    if headIs rest '<' then ([mkSimple "LESS_LESS" "<<" line], line, 1)
    else if headIs rest '=' then ([mkSimple "LESS_EQUAL" "<=" line], line, 1)
    else ([mkSimple "LESS" "<" line], line, 0)
  else if c = '>' then
    if headIs rest '>' then ([mkSimple "GREATER_GREATER" ">>" line], line, 1)
    else if headIs rest '=' then ([mkSimple "GREATER_EQUAL" ">=" line], line, 1)
    else ([mkSimple "GREATER" ">" line], line, 0)
  else if c = '#' then ([mkSimple "FOUNDATION" "#" line], line, 0)
  else if c = ' ' || c = '\r' || c = '\t' then ([], line, 0)
  else if c = '\n' then ([mkSimple "NEWLINE" "\n" line], line + 1, 0)
  else if isDigitC c then
    let r := numberScan c rest
    ([{ ttype := "NUMBER", lexeme := String.mk r.2.1, lit := r.1,
        line := line }], line, r.2.2)
  else if isAlphaC c then
    let t := rest.takeWhile isAlphaNumC
    let text := String.mk (c :: t)
    let tok :=
      if text = "_" then mkSimple "UNDERSCORE" text line
      else
        match keywordType text with
        | some ty =>
          let lit := if ty = "TRUE" then TokLit.bool true
                     else if ty = "FALSE" then TokLit.bool false
                     else TokLit.nolit
          { ttype := ty, lexeme := text, lit := lit, line := line }
        | none => { ttype := "IDENTIFIER", lexeme := text, lit := .nolit, line := line }
    ([tok], line, t.length)
  else ([], line, 0)

/-- `scanToken()`: the string-literal branch — the only branch that can
throw — followed by all others.  (The `switch` cases of the source are
mutually exclusive single-character dispatches, so testing the quote
first is order-equivalent.) -/
def scanToken (line : Nat) (c : Char) (rest : List Char) :
    Except String (List Token × Nat × Nat) :=
  if c = '"' then
    match stringScan line rest with
    | .error l => .error ("Unterminated string at line " ++ toString l)
    | .ok (content, l, k) =>
      .ok ([{ ttype := "STRING", lexeme := String.mk ('"' :: content ++ ['"']),
              lit := .str (String.mk content), line := l }], l, k)
  else .ok (scanOther line c rest)

/-- The `tokenize()` loop.  The fuel is only a structural-recursion device:
each iteration consumes at least one character, so with fuel exceeding the
input length the fuel case is unreachable (proved below). -/
def tokenizeGo : Nat → Nat → List Char → Except String (List Token)
  | 0, _, _ => .error "fuel"
  | fuel + 1, line, cs =>
    match cs with
    | [] => .ok [{ ttype := "EOF", lexeme := "", lit := .nolit, line := line }]
    | c :: rest =>
      match scanToken line c rest with
      | .error e => .error e
      | .ok (ts, line2, k) =>
        match tokenizeGo fuel line2 (rest.drop k) with
        | .error e => .error e
        | .ok more => .ok (ts ++ more)

def tokenize (s : String) : Except String (List Token) :=
  tokenizeGo (s.length + 1) 1 s.data

end Lex

namespace Rage

/-- The runtime value model (`RageValue` of builtins.ts).  Arrays,
prototypes and functions live in arenas inside `State` and are referred to
by index, which gives them the reference identity and shared mutability of
the source.  Enum-variant instances are stored inline (see the header). -/
inductive Value where
  | vnull
  | vbool (b : Bool)
  | vnum (n : Int)
  | vstr (s : String)
  | varr (r : Nat)
  | vproto (r : Nat)
  | vfun (r : Nat)
  | vnative (name : String)
  | venumdef (enumName variantName : String) (fields : List String)
  | venumvar (enumName variantName : String) (data : List (String × Value))

/-- `isTruthy` of interpreter.ts. -/
def isTruthy : Value → Bool
  | .vnull => false
  | .vbool b => b
  | .vnum n => n != 0
  | .vstr s => decide (0 < s.length)
  | _ => true

/-- JS `Map.set` on an association list: replace in place, else append. -/
def mapSet (m : List (String × Value)) (k : String) (v : Value) :
    List (String × Value) :=
  match m with
  | [] => [(k, v)]
  | (k2, v2) :: rest => if k2 = k then (k, v) :: rest else (k2, v2) :: mapSet rest k v

def mapGet (m : List (String × Value)) (k : String) : Option Value :=
  match m with
  | [] => none
  | (k2, v2) :: rest => if k2 = k then some v2 else mapGet rest k

def mapHas (m : List (String × Value)) (k : String) : Bool := (mapGet m k).isSome

/-- One `Environment`: its bindings and its optional parent. -/
structure Scope where
  bindings : List (String × Value)
  parent : Option Nat

/-- The AST subset needed by the verified properties, from ast.ts.
`assign` is `AssignmentExpression` with operator `=`; call arguments carry
the optional keyword name.  (Index, slice, update, loop, match-expression
and enum-declaration nodes are not needed by any claim and are omitted;
every constructor present behaves exactly as the source.) -/
inductive Expr where
  | num (n : Int)
  | str (s : String)
  | bool (b : Bool)
  | null
  | ident (name : String)
  | arrayLit (elems : List Expr)
  | binary (op : String) (l r : Expr)
  | unary (op : String) (e : Expr)
  | assign (target : Expr) (value : Expr)
  | call (callee : Expr) (args : List (Option String × Expr))
  | member (obj : Expr) (prop : String)

inductive Stmt where
  | varDecl (name : String) (init : Expr)
  | exprStmt (e : Expr)
  | funDecl (name : String) (params : List String) (body : List Stmt)
  | ret (arg : Option Expr)
  | ifS (cond : Expr) (consequent : List Stmt) (alternate : Option (List Stmt))

/-- A user function value (`RageFunction`): name, parameters, body, and the
captured environment (`closure`), as an index into the scope arena. -/
structure Func where
  name : String
  params : List String
  body : List Stmt
  closure : Nat

end Rage

namespace Rage

/-- Control transfer: the `ReturnException` signal of the source as an
explicit result (`break` is not needed by any verified property). -/
inductive Flow where
  | normal
  | ret (v : Value)

/-- The interpreter heap: the scope arena plus the arenas for arrays,
prototypes and user functions. -/
structure State where
  scopes : List Scope
  arrays : List (List Value)
  protos : List (List (String × Value))
  funcs : List Func

/-- `Environment.define`: set in this scope's own map. -/
def envDefine (ss : List Scope) (i : Nat) (n : String) (v : Value) : List Scope :=
  match ss[i]? with
  | some sc => ss.set i { sc with bindings := mapSet sc.bindings n v }
  | none => ss

/-- `Environment.get`: walk the parent chain; `Undefined variable` when
exhausted.  The fuel only bounds the chain walk (callers pass the arena
size, which bounds every acyclic chain). -/
def envGet : Nat → List Scope → Nat → String → Except String Value
  | 0, _, _, n => .error ("Undefined variable: " ++ n)
  | fuel + 1, ss, i, n =>
    match ss[i]? with
    | none => .error ("Undefined variable: " ++ n)
    | some sc =>
      match mapGet sc.bindings n with
      | some v => .ok v
      | none =>
        match sc.parent with
        | some p => envGet fuel ss p n
        | none => .error ("Undefined variable: " ++ n)

/-- `Environment.set`: update here if this scope defines the name, else
defer to the parent; a parentless scope (the outermost one) creates the
binding. -/
def envSet : Nat → List Scope → Nat → String → Value → List Scope
  | 0, ss, _, _, _ => ss
  | fuel + 1, ss, i, n, v =>
    match ss[i]? with
    | none => ss
    | some sc =>
      if mapHas sc.bindings n then
        ss.set i { sc with bindings := mapSet sc.bindings n v }
      else
        match sc.parent with
        | some p => envSet fuel ss p n v
        | none => ss.set i { sc with bindings := mapSet sc.bindings n v }

/-- The parent chain of scope `i`, nearest first. -/
def envChain : Nat → List Scope → Nat → List Nat
  | 0, _, _ => []
  | fuel + 1, ss, i =>
    match ss[i]? with
    | none => []
    | some sc =>
      i :: (match sc.parent with
            | some p => envChain fuel ss p
            | none => [])

/-- `Interpreter.BUILTIN_PARAMS`: the per-function ordered parameter-name
lists declared by the engine for keyword-argument support. -/
def BUILTIN_PARAMS : String → Option (List String)
  | "sprite" => some ["path", "x", "y", "width", "height", "sx", "sy", "sw", "sh", "color"]
  | "text" => some ["text", "x", "y", "size", "color"]
  | "rect" => some ["x", "y", "width", "height", "color"]
  | "circle" => some ["x", "y", "radius", "color"]
  | "line" => some ["x1", "y1", "x2", "y2", "color", "width"]
  | "clear" => some ["color"]
  | "min" => some ["a", "b"]
  | "max" => some ["a", "b"]
  | "clamp" => some ["value", "min", "max"]
  | "lerp" => some ["a", "b", "t"]
  | "distance" => some ["x1", "y1", "x2", "y2"]
  | "rect_overlap" => some ["x1", "y1", "w1", "h1", "x2", "y2", "w2", "h2"]
  | "randomInt" => some ["min", "max"]
  | "push" => some ["arr", "value"]
  | "insert" => some ["arr", "index", "value"]
  | "remove" => some ["arr", "value"]
  | "extend" => some ["arr", "other"]
  | "count" => some ["arr", "value"]
  | "index" => some ["arr", "value"]
  | "contains" => some ["arr", "value"]
  | "slice" => some ["arr", "start", "end"]
  | "join" => some ["arr", "separator"]
  | "array" => some ["size"]
  | "music" => some ["path", "volume"]
  | "music_volume" => some ["volume"]
  | "sound" => some ["path", "gain"]
  | "master_volume" => some ["volume"]
  | "pressed" => some ["action"]
  | "held" => some ["action"]
  | "released" => some ["action"]
  | "key_pressed" => some ["key"]
  | "key_held" => some ["key"]
  | "key_released" => some ["key"]
  | "mouse_pressed" => some ["button"]
  | "mouse_held" => some ["button"]
  | "mouse_released" => some ["button"]
  | "touch_x" => some ["index"]
  | "touch_y" => some ["index"]
  | "buffer_input" => some ["action", "duration"]
  | "check_buffer" => some ["action"]
  | "peek_buffer" => some ["action"]
  | "clear_buffer" => some ["action"]
  | "buffer_time" => some ["action"]
  | "deg" => some ["radians"]
  | "rad" => some ["degrees"]
  | "asin" => some ["x"]
  | "acos" => some ["x"]
  | "atan" => some ["x"]
  | "sinh" => some ["x"]
  | "cosh" => some ["x"]
  | "tanh" => some ["x"]
  | "log" => some ["x"]
  | "log10" => some ["x"]
  | "exp" => some ["x"]
  | "time" => some []
  | "frames" => some []
  | _ => none

/-- The names registered by `createBuiltins` (builtins.ts), in registration
order. -/
def builtinNames : List String :=
  ["text", "sprite", "clear", "rect", "circle", "line",
   "abs", "floor", "ceil", "round", "min", "max",
   "sin", "cos", "tan", "asin", "acos", "atan", "atan2", "sinh", "cosh", "tanh",
   "PI", "TAU", "E", "deg", "rad",
   "sqrt", "pow", "log", "log10", "exp",
   "random", "randomInt", "print", "lerp", "clamp", "sign",
   "distance", "rect_overlap",
   "array", "len", "push", "pop", "sort", "sorted", "reverse", "reversed",
   "slice", "index", "contains", "insert", "remove", "extend", "count", "join",
   "time",
   "music", "stop_music", "music_volume", "sound", "stop_sounds", "master_volume",
   "pressed", "held", "released",
   "key_pressed", "key_held", "key_released",
   "mouse_x", "mouse_y", "mouse_pressed", "mouse_held", "mouse_released",
   "touch_count", "touch_x", "touch_y",
   "buffer_input", "check_buffer", "peek_buffer", "clear_buffer",
   "clear_all_buffers", "buffer_time"]

/-- The interpreter constructor: a single global environment holding every
builtin as a `NativeFunction` value. -/
def initState : State :=
  { scopes := [{ bindings := builtinNames.map (fun n => (n, Value.vnative n)),
                 parent := none }],
    arrays := [], protos := [], funcs := [] }

def listIndexOfGo : List String → String → Nat → Option Nat
  | [], _, _ => none
  | y :: rest, x, i => if y = x then some i else listIndexOfGo rest x (i + 1)

/-- `Array.prototype.indexOf` on a list of names. -/
def listIndexOf (l : List String) (x : String) : Option Nat := listIndexOfGo l x 0

/-- `while (args.length <= idx) args.push(null)`. -/
def padToLen (args : List Value) (len : Nat) : List Value :=
  args ++ List.replicate (len - args.length) Value.vnull

def resolveArgsGo (ps : List String) :
    List Value → List (String × Value) → Except String (List Value)
  | args, [] => .ok args
  | args, (n, v) :: rest =>
    match listIndexOf ps n with
    | none => .error ("Unknown keyword argument: " ++ n)
    | some idx => resolveArgsGo ps ((padToLen args (idx + 1)).set idx v) rest

/-- `Interpreter.resolveArgs`: positional args pass through; keyword args
are placed by the parameter-name list when one exists, and are appended
after the positional ones when none does. -/
def resolveArgs (pos : List Value) (kw : List (String × Value))
    (params : Option (List String)) : Except String (List Value) :=
  if kw.isEmpty then .ok pos
  else
    match params with
    | none => .ok (pos ++ kw.map Prod.snd)
    | some ps => resolveArgsGo ps pos kw

/-- JS `Number()` on the value kinds whose coercion the verified
properties exercise; other coercions (strings, objects, NaN) are IEEE
specific and left unmodelled. -/
def toNumber : Value → Option Int
  | .vnum n => some n
  | .vbool b => some (if b then 1 else 0)
  | .vnull => some 0
  | _ => none

/-- JS `String()` on primitive values (integer-valued number formatting
agrees with `Int` printing). -/
def jsToString : Value → Option String
  | .vstr s => some s
  | .vnum n => some (toString n)
  | .vbool b => some (if b then "true" else "false")
  | .vnull => some "null"
  | _ => none

def toUint32 (n : Int) : Nat := (n % (2 ^ 32)).toNat

/-- `x | 0`: truncation to a signed 32-bit integer. -/
def toInt32 (n : Int) : Int := (n + 2 ^ 31) % 2 ^ 32 - 2 ^ 31

/-- JS `===`.  Reference kinds compare by arena index, which is reference
identity.  Two inline enum-variant values are distinct objects whenever
they were constructed separately, hence `false`; no verified property
compares an enum variant with itself through two aliases. -/
def jsStrictEq : Value → Value → Bool
  | .vnull, .vnull => true
  | .vbool a, .vbool b => a == b
  | .vnum a, .vnum b => a == b
  | .vstr a, .vstr b => a == b
  | .varr a, .varr b => a == b
  | .vproto a, .vproto b => a == b
  | .vfun a, .vfun b => a == b
  | .vnative a, .vnative b => a == b
  | _, _ => false

/-- The non-short-circuit cases of `evaluateBinary`.  `/`, `%` and `**`
produce IEEE doubles and are left unmodelled (no verified property uses
them); every other operator is exact on the modelled values. -/
def applyBinary (op : String) (l r : Value) : Except String Value :=
  if op = "+" then
    match l, r with
    | .vstr _, _ | _, .vstr _ =>
      match jsToString l, jsToString r with
      | some a, some b => .ok (.vstr (a ++ b))
      | _, _ => .error "string coercion of composite values not modelled"
    | _, _ =>
      match toNumber l, toNumber r with
      | some a, some b => .ok (.vnum (a + b))
      | _, _ => .error "numeric coercion not modelled"
  else if op = "-" then
    match toNumber l, toNumber r with
    | some a, some b => .ok (.vnum (a - b))
    | _, _ => .error "numeric coercion not modelled"
  else if op = "*" then
    match toNumber l, toNumber r with
    | some a, some b => .ok (.vnum (a * b))
    | _, _ => .error "numeric coercion not modelled"
  else if op = "/" || op = "%" || op = "**" then
    .error "IEEE-754 division and exponentiation not modelled"
  else if op = "==" then .ok (.vbool (jsStrictEq l r))
  else if op = "!=" then .ok (.vbool (!jsStrictEq l r))
  else if op = "<" || op = "<=" || op = ">" || op = ">=" then
    match toNumber l, toNumber r with
    | some a, some b =>
      .ok (.vbool (if op = "<" then a < b else if op = "<=" then a ≤ b
                   else if op = ">" then b < a else b ≤ a))
    | _, _ => .error "numeric coercion not modelled"
  else if op = "&" || op = "|" || op = "^" then
    match toNumber l, toNumber r with
    | some a, some b =>
      let x := toUint32 (toInt32 a)
      let y := toUint32 (toInt32 b)
      .ok (.vnum (toInt32 (if op = "&" then Nat.land x y
                           else if op = "|" then Nat.lor x y else Nat.xor x y)))
    | _, _ => .error "numeric coercion not modelled"
  else if op = "<<" || op = ">>" then
    match toNumber l, toNumber r with
    | some a, some b =>
      let sa := toInt32 a
      let k := (toUint32 (toInt32 b)) % 32
      .ok (.vnum (if op = "<<" then toInt32 (sa * 2 ^ k) else Int.fdiv sa (2 ^ k)))
    | _, _ => .error "numeric coercion not modelled"
  else .error ("Unknown operator: " ++ op)

/-- `evaluateUnary` after the operand has been evaluated. -/
def applyUnary (op : String) (v : Value) : Except String Value :=
  if op = "-" then
    match toNumber v with
    | some n => .ok (.vnum (-n))
    | none => .error "numeric coercion not modelled"
  else if op = "!" then .ok (.vbool (!isTruthy v))
  else if op = "~" then
    match toNumber v with
    | some n => .ok (.vnum (toInt32 (-(toInt32 n) - 1)))
    | none => .error "numeric coercion not modelled"
  else .error ("Unknown unary operator: " ++ op)

/-- Native function bodies.  Only pure builtins that a verified property
evaluates are given bodies (`abs`, `len`, `min`, `max`, `print`); `len`
and `print` are total exactly as in the source, the numeric ones are
modelled on numeric arguments. -/
def applyNative (name : String) (args : List Value) (st : State) :
    Except String (Value × State) :=
  if name = "abs" then
    match args.headD .vnull with
    | .vnum n => .ok (.vnum (if n < 0 then -n else n), st)
    | _ => .error "native abs: non-numeric argument not modelled"
  else if name = "len" then
    match args.headD .vnull with
    | .varr r => .ok (.vnum ((st.arrays.getD r []).length : Nat), st)
    | .vstr s => .ok (.vnum (s.length : Nat), st)
    | _ => .ok (.vnum 0, st)
  else if name = "min" || name = "max" then
    match toNumber (args.headD .vnull), toNumber ((args.drop 1).headD .vnull) with
    | some a, some b =>
      .ok (.vnum (if name = "min" then min a b else max a b), st)
    | _, _ => .error "native min/max: non-numeric argument not modelled"
  else if name = "print" then .ok (.vnull, st)
  else .error ("native function not modelled: " ++ name)

/-- Sequential `fnEnv.define(params[i], args[i] ?? null)`; also the field
binding of `callVariantConstructor`. -/
def bindParamsGo (m : List (String × Value)) :
    List String → List Value → List (String × Value)
  | [], _ => m
  | p :: ps, args => bindParamsGo (mapSet m p (args.headD .vnull)) ps (args.drop 1)

/-- Keyword-argument override loop of `callFunction`. -/
def bindKw (params : List String) (fnName : String) :
    List (String × Value) → List (String × Value) →
    Except String (List (String × Value))
  | m, [] => .ok m
  | m, (n, v) :: rest =>
    if params.contains n then bindKw params fnName (mapSet m n v) rest
    else .error ("Unknown keyword argument: " ++ n ++ " for function " ++ fnName)

end Rage

namespace Rage

/-- The mutually recursive evaluation functions of `Interpreter`, indexed
by fuel.  `Interp` packages them so that the whole interpreter is one
structural recursion on the fuel, which keeps every definition reducible.
Running out of fuel reports an error; all theorems below either hold for
every fuel or use a fuel large enough for the program at hand. -/
structure Interp where
  evaluate : State → Nat → Expr → Except String (Value × State)
  evaluateList : State → Nat → List Expr → Except String (List Value × State)
  evaluateArgs : State → Nat → List (Option String × Expr) → List Value →
    List (String × Value) → Except String ((List Value × List (String × Value)) × State)
  callValue : State → Option String → Value → List Value →
    List (String × Value) → Except String (Value × State)
  executeStatement : State → Nat → Stmt → Except String (Flow × State)
  executeStatements : State → Nat → List Stmt → Except String (Flow × State)

def outOfFuel : Interp :=
  { evaluate := fun _ _ _ => .error "fuel",
    evaluateList := fun _ _ _ => .error "fuel",
    evaluateArgs := fun _ _ _ _ _ => .error "fuel",
    callValue := fun _ _ _ _ _ => .error "fuel",
    executeStatement := fun _ _ _ => .error "fuel",
    executeStatements := fun _ _ _ => .error "fuel" }

/-- One fuel level of the interpreter.  Each function mirrors its source
method; comments name the originals. -/
def mkInterp : Nat → Interp
  | 0 => outOfFuel
  | fuel + 1 =>
    { -- `Interpreter.evaluate`
      evaluate := fun st env e =>
        match e with
        | .num n => .ok (.vnum n, st)
        | .str s => .ok (.vstr s, st)
        | .bool b => .ok (.vbool b, st)
        | .null => .ok (.vnull, st)
        | .ident n =>
          match envGet st.scopes.length st.scopes env n with
          | .ok v => .ok (v, st)
          | .error msg => .error msg
        | .arrayLit es =>
          match (mkInterp fuel).evaluateList st env es with
          | .ok (vs, st2) =>
            .ok (.varr st2.arrays.length, { st2 with arrays := st2.arrays ++ [vs] })
          | .error msg => .error msg
        | .binary op l r =>
          -- `evaluateBinary`: logical operators short-circuit first
          if op = "and" || op = "&&" then
            match (mkInterp fuel).evaluate st env l with
            | .error msg => .error msg
            | .ok (lv, st2) =>
              if !isTruthy lv then .ok (lv, st2)
              else (mkInterp fuel).evaluate st2 env r
          else if op = "or" || op = "||" then
            match (mkInterp fuel).evaluate st env l with
            | .error msg => .error msg
            | .ok (lv, st2) =>
              if isTruthy lv then .ok (lv, st2)
              else (mkInterp fuel).evaluate st2 env r
          else
            match (mkInterp fuel).evaluate st env l with
            | .error msg => .error msg
            | .ok (lv, st2) =>
              match (mkInterp fuel).evaluate st2 env r with
              | .error msg => .error msg
              | .ok (rv, st3) =>
                match applyBinary op lv rv with
                | .ok v => .ok (v, st3)
                | .error msg => .error msg
        | .unary op a =>
          match (mkInterp fuel).evaluate st env a with
          | .error msg => .error msg
          | .ok (v, st2) =>
            match applyUnary op v with
            | .ok v2 => .ok (v2, st2)
            | .error msg => .error msg
        | .assign target value =>
          -- `evaluateAssignment` with operator `=`
          match (mkInterp fuel).evaluate st env value with
          | .error msg => .error msg
          | .ok (rv, st2) =>
            match target with
            | .ident n =>
              .ok (rv, { st2 with
                         scopes := envSet st2.scopes.length st2.scopes env n rv })
            | .member objE prop =>
              match (mkInterp fuel).evaluate st2 env objE with
              | .error msg => .error msg
              | .ok (ov, st3) =>
                match ov with
                | .vproto pr =>
                  .ok (rv, { st3 with
                             protos := st3.protos.set pr
                               (mapSet (st3.protos.getD pr []) prop rv) })
                | _ => .error "Can only set properties on prototypes"
            | _ => .ok (rv, st2)
        | .call callee args =>
          -- `evaluateCall`
          match (mkInterp fuel).evaluate st env callee with
          | .error msg => .error msg
          | .ok (cv, st2) =>
            match (mkInterp fuel).evaluateArgs st2 env args [] [] with
            | .error msg => .error msg
            | .ok ((pos, kw), st3) =>
              let builtinName := match callee with
                | .ident n => some n
                | _ => none
              (mkInterp fuel).callValue st3 builtinName cv pos kw
        | .member objE prop =>
          -- `evaluateMember`
          match (mkInterp fuel).evaluate st env objE with
          | .error msg => .error msg
          | .ok (ov, st2) =>
            match ov with
            | .vnull => .error "Cannot access property on null"
            | .vproto pr => .ok ((mapGet (st2.protos.getD pr []) prop).getD .vnull, st2)
            | _ => .error "Can only access properties on prototypes",
      evaluateList := fun st env es =>
        match es with
        | [] => .ok ([], st)
        | e :: rest =>
          match (mkInterp fuel).evaluate st env e with
          | .error msg => .error msg
          | .ok (v, st2) =>
            match (mkInterp fuel).evaluateList st2 env rest with
            | .error msg => .error msg
            | .ok (vs, st3) => .ok (v :: vs, st3),
      -- the argument-collection loop of `evaluateCall`
      evaluateArgs := fun st env args pos kw =>
        match args with
        | [] => .ok ((pos, kw), st)
        | (nameOpt, e) :: rest =>
          match (mkInterp fuel).evaluate st env e with
          | .error msg => .error msg
          | .ok (v, st2) =>
            match nameOpt with
            | none => (mkInterp fuel).evaluateArgs st2 env rest (pos ++ [v]) kw
            | some nm => (mkInterp fuel).evaluateArgs st2 env rest pos (mapSet kw nm v),
      -- the dispatch of `evaluateCall` + `callFunction` + `callVariantConstructor`
      callValue := fun st builtinName cv pos kw =>
        match cv with
        | .vnative nm =>
          let params := match builtinName with
            | some bn => BUILTIN_PARAMS bn
            | none => none
          match resolveArgs pos kw params with
          | .error msg => .error msg
          | .ok args => applyNative nm args st
        | .vfun fr =>
          match st.funcs[fr]? with
          | none => .error "dangling function reference"
          | some fn =>
            match bindKw fn.params fn.name (bindParamsGo [] fn.params pos) kw with
            | .error msg => .error msg
            | .ok binds =>
              let fnEnvIdx := st.scopes.length
              let st2 : State := { st with
                scopes := st.scopes ++ [{ bindings := binds, parent := some fn.closure }] }
              -- `executeBlock`: the body runs in a fresh child of `fnEnv`
              let blockIdx := st2.scopes.length
              let st3 : State := { st2 with
                scopes := st2.scopes ++ [{ bindings := [], parent := some fnEnvIdx }] }
              match (mkInterp fuel).executeStatements st3 blockIdx fn.body with
              | .error msg => .error msg
              | .ok (.ret v, st4) => .ok (v, st4)
              | .ok (.normal, st4) => .ok (.vnull, st4)
        | .venumdef en vn fields =>
          match resolveArgs pos kw (some fields) with
          | .error msg => .error msg
          | .ok args => .ok (.venumvar en vn (bindParamsGo [] fields args), st)
        | _ => .error "Can only call functions or enum variant constructors",
      -- `Interpreter.executeStatement`
      executeStatement := fun st env s =>
        match s with
        | .varDecl n e =>
          -- `executeVariableDeclaration`: uses `set`, not `define`
          match (mkInterp fuel).evaluate st env e with
          | .error msg => .error msg
          | .ok (v, st2) =>
            .ok (.normal, { st2 with
                            scopes := envSet st2.scopes.length st2.scopes env n v })
        | .exprStmt e =>
          match (mkInterp fuel).evaluate st env e with
          | .error msg => .error msg
          | .ok (_, st2) => .ok (.normal, st2)
        | .funDecl n ps body =>
          -- `executeFunctionDeclaration`: closure is the current environment
          let fi := st.funcs.length
          let st2 : State := { st with
            funcs := st.funcs ++ [{ name := n, params := ps, body := body, closure := env }] }
          .ok (.normal, { st2 with scopes := envDefine st2.scopes env n (.vfun fi) })
        | .ret none => .ok (.ret .vnull, st)
        | .ret (some e) =>
          match (mkInterp fuel).evaluate st env e with
          | .error msg => .error msg
          | .ok (v, st2) => .ok (.ret v, st2)
        | .ifS cond cons alt =>
          -- `executeIf`: branches run directly in the current scope
          match (mkInterp fuel).evaluate st env cond with
          | .error msg => .error msg
          | .ok (cv, st2) =>
            if isTruthy cv then (mkInterp fuel).executeStatements st2 env cons
            else
              match alt with
              | some a => (mkInterp fuel).executeStatements st2 env a
              | none => .ok (.normal, st2),
      -- `executeBlockStatements` (also the top-level `run` loop); a
      -- `ReturnException` propagates past the remaining statements
      executeStatements := fun st env ss =>
        match ss with
        | [] => .ok (.normal, st)
        | s :: rest =>
          match (mkInterp fuel).executeStatement st env s with
          | .error msg => .error msg
          | .ok (.normal, st2) => (mkInterp fuel).executeStatements st2 env rest
          | .ok (.ret v, st2) => .ok (.ret v, st2) }

def evaluate (fuel : Nat) : State → Nat → Expr → Except String (Value × State) :=
  (mkInterp fuel).evaluate

def executeStatement (fuel : Nat) :
    State → Nat → Stmt → Except String (Flow × State) :=
  (mkInterp fuel).executeStatement

def executeStatements (fuel : Nat) :
    State → Nat → List Stmt → Except String (Flow × State) :=
  (mkInterp fuel).executeStatements

/-- `run(program)` on a fresh interpreter, then evaluate one further
expression at top level and also read back a global binding; used to state
the concrete end-to-end properties. -/
def runThenEval (fuel : Nat) (stmts : List Stmt) (e : Expr) :
    Except String (Value × State) :=
  match executeStatements fuel initState 0 stmts with
  | .error msg => .error msg
  | .ok (_, st) => evaluate fuel st 0 e

def runThenEvalValue (fuel : Nat) (stmts : List Stmt) (e : Expr) :
    Except String Value :=
  match runThenEval fuel stmts e with
  | .error msg => .error msg
  | .ok (v, _) => .ok v

/-- Run, evaluate, and additionally return the value of a global variable
afterwards (observing side effects of the evaluation). -/
def runEvalThenGlobal (fuel : Nat) (stmts : List Stmt) (e : Expr)
    (globalName : String) : Except String (Value × Value) :=
  match runThenEval fuel stmts e with
  | .error msg => .error msg
  | .ok (v, st) =>
    match envGet st.scopes.length st.scopes 0 globalName with
    | .error msg => .error msg
    | .ok gv => .ok (v, gv)

end Rage

namespace Rage

/-- Literal-pattern payloads (`LiteralPattern.value`).  A non-integer
numeric literal denotes an IEEE double determined by its lexeme; it is
kept abstract (no verified property compares one). -/
inductive LitVal where
  | numV (n : Int)
  | numOtherV (lexeme : String)
  | strV (s : String)
  | boolV (b : Bool)
  | nullV
deriving DecidableEq, Repr

/-- The `Pattern` AST nodes of ast.ts. -/
inductive Pat where
  | wildcard
  | lit (v : LitVal)
  | identP (name : String)
  | variantP (enumName : Option String) (variantName : String) (bindings : List String)
deriving DecidableEq, Repr

/-- `value === pattern.value` for a literal pattern: a primitive literal
is strictly equal only to the same primitive. -/
def litEq : LitVal → Value → Bool
  | .numV n, .vnum m => n == m
  | .strV s, .vstr t => s == t
  | .boolV b, .vbool c => b == c
  | .nullV, .vnull => true
  | _, _ => false

/-- The PascalCase test of `matchPattern`: for the ASCII identifiers the
lexer produces, `x[0] === x[0].toUpperCase() && x[0] !== x[0].toLowerCase()`
holds exactly when the first character is an uppercase letter. -/
def isPascalC (name : String) : Bool :=
  match name.data with
  | c :: _ => c.isUpper
  | [] => false

/-- Positional destructuring of `VariantPattern` bindings against the
variant's ordered field entries; missing fields bind `null`. -/
def extractBindings : List String → List (String × Value) → List (String × Value)
  | [], _ => []
  | b :: bs, data => (b, (data.headD ("", .vnull)).2) :: extractBindings bs (data.drop 1)

/-- `Interpreter.matchPattern`. -/
def matchPattern : Pat → Value → Option (List (String × Value))
  | .wildcard, _ => some []
  | .lit lv, v => if litEq lv v then some [] else none
  | .identP name, v =>
    if isPascalC name then
      match v with
      | .venumvar _ vn _ => if vn = name then some [] else none
      | _ => none
    else some [(name, v)]
  | .variantP en vn bs, v =>
    match v with
    | .venumvar ven vvn data =>
      if vvn != vn then none
      else if (match en with | some q => ven != q | none => false) then none
      else some (extractBindings bs data)
    | _ => none

/-- The `do { IDENTIFIER } while (COMMA); RPAREN` loop of
`Parser.pattern()` for variant bindings. -/
def parseBindings : List Lex.Token → Except String (List String × List Lex.Token)
  | [] => .error "Expected binding name"
  | t :: rest =>
    if t.ttype = "IDENTIFIER" then
      match rest with
      | [] => .error "Expected right paren after variant bindings"
      | c :: rest2 =>
        if c.ttype = "COMMA" then
          match parseBindings rest2 with
          | .ok (bs, r2) => .ok (t.lexeme :: bs, r2)
          | .error msg => .error msg
        else if c.ttype = "RPAREN" then .ok ([t.lexeme], rest2)
        else .error "Expected right paren after variant bindings"
    else .error "Expected binding name"

/-- `Parser.pattern()`: wildcard, literal, identifier, or variant pattern,
returning the parsed pattern and the remaining tokens.  (In the source the
token stream always ends with an EOF token, so the empty-input case is
unreachable.) -/
def parsePattern : List Lex.Token → Except String (Pat × List Lex.Token)
  | [] => .error "Unexpected pattern at line 0"
  | t :: rest =>
    if t.ttype = "UNDERSCORE" then .ok (.wildcard, rest)
    else if t.ttype = "NUMBER" then
      .ok (.lit (match t.lit with
                 | .num n => .numV n
                 | _ => .numOtherV t.lexeme), rest)
    else if t.ttype = "STRING" then
      .ok (.lit (match t.lit with
                 | .str s => .strV s
                 | _ => .strV t.lexeme), rest)
    else if t.ttype = "TRUE" then .ok (.lit (.boolV true), rest)
    else if t.ttype = "FALSE" then .ok (.lit (.boolV false), rest)
    else if t.ttype = "NULL" then .ok (.lit .nullV, rest)
    else if t.ttype = "IDENTIFIER" then
      match rest with
      | [] => .ok (.identP t.lexeme, [])
      | l :: rest2 =>
        if l.ttype = "LPAREN" then
          match rest2 with
          | [] => .error "Expected binding name"
          | r :: rest3 =>
            if r.ttype = "RPAREN" then .ok (.variantP none t.lexeme [], rest3)
            else
              match parseBindings rest2 with
              | .error msg => .error msg
              | .ok (bs, rest4) => .ok (.variantP none t.lexeme bs, rest4)
        else .ok (.identP t.lexeme, rest)
    else .error ("Unexpected pattern at line " ++ toString t.line)

/-- The closure-sharing program of the specification:
`count=0; fun inc(){count=count+1 return count}; fun make(){return inc};
c=make(); c()` — followed by one more call `c()`. -/
def closureProgram : List Stmt :=
  [ .varDecl "count" (.num 0),
    .funDecl "inc" []
      [ .varDecl "count" (.binary "+" (.ident "count") (.num 1)),
        .ret (some (.ident "count")) ],
    .funDecl "make" [] [ .ret (some (.ident "inc")) ],
    .varDecl "c" (.call (.ident "make") []),
    .exprStmt (.call (.ident "c") []) ]

def closureFinalCall : Except String Value :=
  runThenEvalValue 1000 closureProgram (.call (.ident "c") [])

/-- `fun sideEffect() { called = 1 return true }` preceded by
`called = 0`; the two statements parse exactly this way (statement-level
`name = expr` folds to a `VariableDeclaration`). -/
def sideEffectProgram : List Stmt :=
  [ .varDecl "called" (.num 0),
    .funDecl "sideEffect" []
      [ .varDecl "called" (.num 1),
        .ret (some (.bool true)) ] ]

def sideEffectCall : Expr := .call (.ident "sideEffect") []

/-- Evaluate a logical expression after the side-effect program, returning
the expression's value together with the final value of `called`. -/
def shortCircuitObserved (e : Expr) : Except String (Value × Value) :=
  runEvalThenGlobal 1000 sideEffectProgram e "called"

/-- The repository's own test program for `.length`:
`arr = [1, 2, 3, 4, 5]` then `len = arr.length`. -/
def arrayLengthProgram : List Stmt :=
  [ .varDecl "arr" (.arrayLit [.num 1, .num 2, .num 3, .num 4, .num 5]),
    .varDecl "len" (.member (.ident "arr") "length") ]

def arrayLengthResult : Except String (Flow × State) :=
  executeStatements 1000 initState 0 arrayLengthProgram

end Rage

namespace Rage

/-- Replace the binding map of scope `j` by `mapSet … n v` (used to state
what `Environment.set` does to the arena). -/
def updateScopeBinding (ss : List Scope) (j : Nat) (n : String) (v : Value) :
    List Scope :=
  match ss[j]? with
  | some sc => ss.set j { sc with bindings := mapSet sc.bindings n v }
  | none => ss

/-- Scope `j` of the arena defines the name `n`. -/
def definesAt (ss : List Scope) (n : String) (j : Nat) : Bool :=
  match ss[j]? with
  | some sc => mapHas sc.bindings n
  | none => false

/-- The first scope along a chain that defines `n`. -/
def firstDefining (c : List Nat) (ss : List Scope) (n : String) : Option Nat :=
  c.find? (definesAt ss n)

def scopeParentD (ss : List Scope) (r : Nat) : Option Nat :=
  (ss[r]?).bind Scope.parent

end Rage

namespace Falling

/-- Every non-blank cell strictly above the foundation row (within the
grid's width) satisfies the support predicate. -/
def allSupportedAbove (g : Grid) (w f : Nat) : Bool :=
  (List.range f).all fun r =>
    (List.range w).all fun c =>
      (cellAt g r c == ' ') || isSupported g w (some f) r c

/-- The line carries no trailing character of the JS `\s` class. -/
def noTrailWs (l : List Char) : Bool :=
  match l.getLast? with
  | none => true
  | some c => !isJsSpace c

/-- The flapping counterexample source: `x` sits directly above the
non-foundation character `a` on the foundation row. -/
def flapSource : List Char := ("x\na  #").data

def flapGrid : Grid := buildGrid flapSource

def flapWidth : Nat := gridWidth (splitLines flapSource)

def flapFinal : Grid :=
  (processLoop (flapGrid.length * flapWidth) flapGrid flapWidth 1).1

end Falling

/-! ## Theorems -/

/-- C10: Truthiness, as used by `if` conditions, the `!` operator, and the
short-circuit logical operators, is: null is falsy; a Boolean is its own
truth value; a Number is truthy iff it is not 0; a String is truthy iff it
is non-empty; every other value kind (Array, Prototype, Function,
NativeFunction, EnumVariantDef, EnumVariant — including an empty Array and
an empty Prototype, since reference values are truthy regardless of their
contents) is truthy; and `!` and `if` consult exactly this predicate. -/
theorem C10_isTruthy_spec :
    (Rage.isTruthy .vnull = false)
    ∧ (∀ b, Rage.isTruthy (.vbool b) = b)
    ∧ (∀ n : Int, Rage.isTruthy (.vnum n) = decide (n ≠ 0))
    ∧ (∀ s : String, Rage.isTruthy (.vstr s) = decide (s ≠ ""))
    ∧ (∀ r, Rage.isTruthy (.varr r) = true)
    ∧ (∀ r, Rage.isTruthy (.vproto r) = true)
    ∧ (∀ r, Rage.isTruthy (.vfun r) = true)
    ∧ (∀ nm, Rage.isTruthy (.vnative nm) = true)
    ∧ (∀ en vn fs, Rage.isTruthy (.venumdef en vn fs) = true)
    ∧ (∀ en vn d, Rage.isTruthy (.venumvar en vn d) = true)
    ∧ (∀ fuel st env e v st2, Rage.evaluate fuel st env e = .ok (v, st2) →
        Rage.evaluate (fuel + 1) st env (.unary "!" e) =
          .ok (.vbool (!Rage.isTruthy v), st2))
    ∧ (∀ fuel st env e v st2 cons alt,
        Rage.evaluate fuel st env e = .ok (v, st2) →
        Rage.executeStatement (fuel + 1) st env (.ifS e cons alt) =
          (if Rage.isTruthy v then Rage.executeStatements fuel st2 env cons
           else match alt with
                | some a => Rage.executeStatements fuel st2 env a
                | none => .ok (.normal, st2))) := by
  refine ⟨rfl, fun b => rfl, fun n => ?_, fun s => ?_, fun r => rfl, fun r => rfl,
    fun r => rfl, fun nm => rfl, fun en vn fs => rfl, fun en vn d => rfl,
    ?_, ?_⟩
  · by_cases hn : n = 0 <;> simp [Rage.isTruthy, hn]
  · simp [Rage.isTruthy, String.ext_iff, ← List.length_pos_iff_ne_nil]
  · intro fuel st env e v st2 h
    simp only [Rage.evaluate, Rage.mkInterp] at h ⊢
    rw [h]
    simp [Rage.applyUnary]
  · intro fuel st env e v st2 cons alt h
    simp only [Rage.evaluate] at h
    simp only [Rage.executeStatement, Rage.executeStatements, Rage.mkInterp]
    rw [h]

theorem C10_isTruthy_spec_witness :
    (Rage.evaluate 2 Rage.initState 0 (.unary "!" (.num 5)) =
      .ok (.vbool false, Rage.initState))
    ∧ (Rage.executeStatement 2 Rage.initState 0 (.ifS (.num 0) [] none) =
      .ok (.normal, Rage.initState)) := by
  constructor
  · have h := C10_isTruthy_spec.2.2.2.2.2.2.2.2.2.2.1 1 Rage.initState 0
      (.num 5) (.vnum 5) Rage.initState rfl
    simpa using h
  · have h := C10_isTruthy_spec.2.2.2.2.2.2.2.2.2.2.2 1 Rage.initState 0
      (.num 0) (.vnum 0) Rage.initState [] none rfl
    simpa using h

/-- C2: `&&`/`and` and `||`/`or` are value-preserving short-circuit
operators: when the left operand decides the result, the expression
evaluates to the left operand's actual value with no evaluation of the
right operand (the state after the whole expression is the state after the
left operand alone); otherwise the result is exactly the evaluation of the
right operand.  Concretely, with `fun sideEffect(){ called = 1 return
true }` and `called = 0`: `0 && sideEffect()` yields `0` (the operand, not
a coerced boolean) with `called` still `0`; `true || sideEffect()` leaves
`called = 0`; `true && sideEffect()` and `0 || sideEffect()` both invoke
it, leaving `called = 1`. -/
theorem C2_short_circuit :
    (∀ (fuel : Nat) st env e1 e2 v st2 op,
      (op = "and" ∨ op = "&&") →
      Rage.evaluate fuel st env e1 = .ok (v, st2) →
      Rage.isTruthy v = false →
      Rage.evaluate (fuel + 1) st env (.binary op e1 e2) = .ok (v, st2))
    ∧ (∀ (fuel : Nat) st env e1 e2 v st2 op,
      (op = "and" ∨ op = "&&") →
      Rage.evaluate fuel st env e1 = .ok (v, st2) →
      Rage.isTruthy v = true →
      Rage.evaluate (fuel + 1) st env (.binary op e1 e2) =
        Rage.evaluate fuel st2 env e2)
    ∧ (∀ (fuel : Nat) st env e1 e2 v st2 op,
      (op = "or" ∨ op = "||") →
      Rage.evaluate fuel st env e1 = .ok (v, st2) →
      Rage.isTruthy v = true →
      Rage.evaluate (fuel + 1) st env (.binary op e1 e2) = .ok (v, st2))
    ∧ (∀ (fuel : Nat) st env e1 e2 v st2 op,
      (op = "or" ∨ op = "||") →
      Rage.evaluate fuel st env e1 = .ok (v, st2) →
      Rage.isTruthy v = false →
      Rage.evaluate (fuel + 1) st env (.binary op e1 e2) =
        Rage.evaluate fuel st2 env e2)
    ∧ Rage.shortCircuitObserved (.binary "&&" (.num 0) Rage.sideEffectCall) =
        .ok (.vnum 0, .vnum 0)
    ∧ Rage.shortCircuitObserved (.binary "||" (.bool true) Rage.sideEffectCall) =
        .ok (.vbool true, .vnum 0)
    ∧ Rage.shortCircuitObserved (.binary "&&" (.bool true) Rage.sideEffectCall) =
        .ok (.vbool true, .vnum 1)
    ∧ Rage.shortCircuitObserved (.binary "||" (.num 0) Rage.sideEffectCall) =
        .ok (.vbool true, .vnum 1) := by
  refine ⟨?_, ?_, ?_, ?_, by rfl, by rfl, by rfl, by rfl⟩ <;>
    (intro fuel st env e1 e2 v st2 op hop h htr;
     simp only [Rage.evaluate] at h;
     simp only [Rage.evaluate, Rage.mkInterp];
     rcases hop with rfl | rfl <;> simp [h, htr])

theorem C2_short_circuit_witness :
    Rage.evaluate 2 Rage.initState 0 (.binary "&&" (.num 0) (.num 7)) =
      .ok (.vnum 0, Rage.initState) :=
  C2_short_circuit.1 1 Rage.initState 0 (.num 0) (.num 7) (.vnum 0)
    Rage.initState "&&" (Or.inr rfl) rfl rfl

theorem envSet_updates_first_defining :
    ∀ (fuel : Nat) (ss : List Rage.Scope) (i : Nat) (n : String) (v : Rage.Value) (j : Nat),
      Rage.firstDefining (Rage.envChain fuel ss i) ss n = some j →
      Rage.envSet fuel ss i n v = Rage.updateScopeBinding ss j n v := by
  intro fuel
  induction fuel with
  | zero => intro ss i n v j h; simp [Rage.envChain, Rage.firstDefining] at h
  | succ fuel ih =>
    intro ss i n v j h
    simp only [Rage.envChain] at h
    simp only [Rage.envSet]
    cases hsi : ss[i]? with
    | none => rw [hsi] at h; simp [Rage.firstDefining] at h
    | some sc =>
      rw [hsi] at h
      simp only [Rage.firstDefining, List.find?_cons] at h
      have hdef : Rage.definesAt ss n i = Rage.mapHas sc.bindings n := by
        simp [Rage.definesAt, hsi]
      rw [hdef] at h
      cases hhas : Rage.mapHas sc.bindings n with
      | true =>
        rw [hhas] at h
        simp only [if_true] at h
        cases h with
        | refl => simp [Rage.updateScopeBinding, hsi, hhas]
      | false =>
        rw [hhas] at h
        simp only [Bool.false_eq_true, if_false] at h
        simp only [hhas, Bool.false_eq_true, if_false]
        cases hp : sc.parent with
        | some p =>
          rw [hp] at h
          exact ih ss p n v j h
        | none =>
          rw [hp] at h
          simp [Rage.firstDefining] at h

theorem envSet_creates_at_chain_root :
    ∀ (fuel : Nat) (ss : List Rage.Scope) (i : Nat) (n : String) (v : Rage.Value) (r : Nat),
      Rage.firstDefining (Rage.envChain fuel ss i) ss n = none →
      (Rage.envChain fuel ss i).getLast? = some r →
      Rage.scopeParentD ss r = none →
      Rage.envSet fuel ss i n v = Rage.updateScopeBinding ss r n v := by
  intro fuel
  induction fuel with
  | zero => intro ss i n v r hfd hlast hpar; simp [Rage.envChain] at hlast
  | succ fuel ih =>
    intro ss i n v r hfd hlast hpar
    cases hsi : ss[i]? with
    | none =>
      have hch : Rage.envChain (fuel + 1) ss i = [] := by
        simp [Rage.envChain, hsi]
      rw [hch] at hlast
      simp at hlast
    | some sc =>
      cases hp : sc.parent with
      | none =>
        have hch : Rage.envChain (fuel + 1) ss i = [i] := by
          simp [Rage.envChain, hsi, hp]
        rw [hch] at hlast hfd
        simp at hlast
        subst hlast
        have hdi : Rage.definesAt ss n i = false := by
          cases hdi : Rage.definesAt ss n i with
          | false => rfl
          | true => simp [Rage.firstDefining, List.find?_cons, hdi] at hfd
        have hhas : Rage.mapHas sc.bindings n = false := by
          rw [Rage.definesAt, hsi] at hdi
          exact hdi
        simp only [Rage.envSet, hsi, hhas, Bool.false_eq_true, if_false, hp]
        simp [Rage.updateScopeBinding, hsi, hp]
      | some p =>
        have hch : Rage.envChain (fuel + 1) ss i = i :: Rage.envChain fuel ss p := by
          simp [Rage.envChain, hsi, hp]
        rw [hch] at hlast hfd
        have hdi : Rage.definesAt ss n i = false := by
          cases hdi : Rage.definesAt ss n i with
          | false => rfl
          | true => simp [Rage.firstDefining, List.find?_cons, hdi] at hfd
        have hfd2 : Rage.firstDefining (Rage.envChain fuel ss p) ss n = none := by
          simpa [Rage.firstDefining, List.find?_cons, hdi] using hfd
        have hhas : Rage.mapHas sc.bindings n = false := by
          rw [Rage.definesAt, hsi] at hdi
          exact hdi
        cases hcp : Rage.envChain fuel ss p with
        | nil =>
          rw [hcp] at hlast
          simp at hlast
          subst hlast
          rw [Rage.scopeParentD, hsi] at hpar
          simp [hp] at hpar
        | cons a as =>
          have hlast2 : (Rage.envChain fuel ss p).getLast? = some r := by
            rw [hcp, List.getLast?_cons_cons] at hlast
            rw [hcp]
            exact hlast
          have hrec := ih ss p n v r hfd2 hlast2 hpar
          simp only [Rage.envSet, hsi, hhas, Bool.false_eq_true, if_false, hp]
          exact hrec

/-- C1: `Environment.set` updates the binding in the nearest enclosing
environment (along the parent chain) that already defines the name; when
no environment in the chain defines it, the binding is created in the
chain's outermost environment — the parentless root, which in a running
interpreter is the global environment — not the local one.  Consequently
the closure-sharing program `count=0; fun inc(){count=count+1 return
count}; fun make(){return inc}; c=make(); c()` makes a final call `c()`
evaluate to 2. -/
theorem C1_assignment_walks_to_global :
    (∀ (fuel : Nat) (ss : List Rage.Scope) (i : Nat) (n : String) (v : Rage.Value) (j : Nat),
      Rage.firstDefining (Rage.envChain fuel ss i) ss n = some j →
      Rage.envSet fuel ss i n v = Rage.updateScopeBinding ss j n v)
    ∧ (∀ (fuel : Nat) (ss : List Rage.Scope) (i : Nat) (n : String) (v : Rage.Value) (r : Nat),
      Rage.firstDefining (Rage.envChain fuel ss i) ss n = none →
      (Rage.envChain fuel ss i).getLast? = some r →
      Rage.scopeParentD ss r = none →
      Rage.envSet fuel ss i n v = Rage.updateScopeBinding ss r n v)
    ∧ Rage.closureFinalCall = .ok (.vnum 2) :=
  ⟨envSet_updates_first_defining, envSet_creates_at_chain_root, by rfl⟩

theorem C1_assignment_walks_to_global_witness :
    (Rage.envSet 2 [{ bindings := [("x", .vnum 1)], parent := none },
                    { bindings := [], parent := some 0 }] 1 "x" (.vnum 9) =
      Rage.updateScopeBinding [{ bindings := [("x", .vnum 1)], parent := none },
                               { bindings := [], parent := some 0 }] 0 "x" (.vnum 9))
    ∧ (Rage.envSet 2 [{ bindings := [("x", .vnum 1)], parent := none },
                      { bindings := [], parent := some 0 }] 1 "y" (.vnum 9) =
      Rage.updateScopeBinding [{ bindings := [("x", .vnum 1)], parent := none },
                               { bindings := [], parent := some 0 }] 0 "y" (.vnum 9)) :=
  ⟨C1_assignment_walks_to_global.1 2 _ 1 "x" (.vnum 9) 0 rfl,
   C1_assignment_walks_to_global.2.1 2 _ 1 "y" (.vnum 9) 0 rfl rfl rfl⟩

/-- C6 (code bug): in `Interpreter.evaluateMember` of interpreter.ts,
member access is valid only on Prototype values; the Array `.length`
special case present in an earlier revision was dropped, so the repo's own
test program `arr = [1, 2, 3, 4, 5]; len = arr.length` ("should handle
array length property", interpreter.test.ts) aborts with an error instead
of binding 5. -/
theorem C6_array_length_member_errors :
    Rage.arrayLengthResult = .error "Can only access properties on prototypes" := by
  rfl

theorem listIndexOfGo_none_iff :
    ∀ (l : List String) (x : String) (k : Nat),
      Rage.listIndexOfGo l x k = none ↔ l.contains x = false := by
  intro l
  induction l with
  | nil => intro x k; simp [Rage.listIndexOfGo]
  | cons y ys ih =>
    intro x k
    by_cases hxy : y = x
    · simp [Rage.listIndexOfGo, hxy]
    · simp only [Rage.listIndexOfGo, hxy, if_false]
      rw [ih x (k + 1)]
      have hbe : (y == x) = false := by simp [hxy]
      simp [List.contains_cons, hbe]
      exact fun _ hx2 => hxy hx2.symm

/-- C7 counterexample: `abs` is a native function (it is registered by
`createBuiltins`) with no entry in `BUILTIN_PARAMS`, and calling it with
the unknown keyword argument `bogus` does **not** raise an error: the
keyword value is appended after the positional arguments and the call
returns 5.  This refutes the claim that unknown keyword names raise a
runtime error for all native functions. -/
theorem C7_unlisted_native_keyword_no_error :
    ("abs" ∈ Rage.builtinNames)
    ∧ Rage.BUILTIN_PARAMS "abs" = none
    ∧ Rage.evaluate 5 Rage.initState 0
        (.call (.ident "abs") [(some "bogus", .num 5)]) =
        .ok (.vnum 5, Rage.initState) := by
  refine ⟨?_, rfl, by rfl⟩
  simp [Rage.builtinNames]

/-- C7 (amended): keyword arguments to a native function are resolved by
`resolveArgs` against the engine-declared parameter-name list **when the
function has one**: every keyword being a declared name makes the call
succeed at positions, and the first undeclared keyword name raises
`Unknown keyword argument: <name>`.  For a native function without a
declared list (`BUILTIN_PARAMS` lookup `none`, e.g. `abs`), keyword values
are appended after the positional arguments and no error is raised. -/
theorem C7_resolveArgs_keyword_behavior :
    (∀ (pos : List Rage.Value) (kw : List (String × Rage.Value)) (ps : List String),
      (∀ p ∈ kw, ps.contains p.1 = true) →
      ∃ args, Rage.resolveArgs pos kw (some ps) = .ok args)
    ∧ (∀ (pos : List Rage.Value) (kw : List (String × Rage.Value)) (ps : List String)
        (n : String) (v : Rage.Value),
      kw.find? (fun p => !(ps.contains p.1)) = some (n, v) →
      Rage.resolveArgs pos kw (some ps) = .error ("Unknown keyword argument: " ++ n))
    ∧ (∀ (pos : List Rage.Value) (kw : List (String × Rage.Value)),
      kw ≠ [] →
      Rage.resolveArgs pos kw none = .ok (pos ++ kw.map Prod.snd)) := by
  refine ⟨?_, ?_, ?_⟩
  · intro pos kw ps hall
    rcases hkw : kw with _ | ⟨⟨n, v⟩, rest⟩
    · exact ⟨pos, by simp [Rage.resolveArgs]⟩
    · subst hkw
      simp only [Rage.resolveArgs, List.isEmpty_cons]
      suffices h : ∀ (kw2 : List (String × Rage.Value)) (args : List Rage.Value),
          (∀ p ∈ kw2, ps.contains p.1 = true) →
          ∃ out, Rage.resolveArgsGo ps args kw2 = .ok out by
        exact h ((n, v) :: rest) pos hall
      intro kw2
      induction kw2 with
      | nil => intro args _; exact ⟨args, rfl⟩
      | cons q qs ih =>
        intro args hall2
        obtain ⟨nq, vq⟩ := q
        have hc : ps.contains nq = true := hall2 (nq, vq) (List.mem_cons_self _ _)
        have hidx : Rage.listIndexOf ps nq ≠ none := by
          rw [Rage.listIndexOf]
          intro hnone
          rw [listIndexOfGo_none_iff ps nq 0] at hnone
          rw [hc] at hnone
          exact absurd hnone (by simp)
        rcases hio : Rage.listIndexOf ps nq with _ | idx
        · exact absurd hio hidx
        · simp only [Rage.resolveArgsGo, hio]
          exact ih ((Rage.padToLen args (idx + 1)).set idx vq)
            (fun p hp => hall2 p (List.mem_cons_of_mem _ hp))
  · intro pos kw ps n v hfind
    have hne : kw ≠ [] := by
      intro hk
      rw [hk] at hfind
      simp at hfind
    have hemp : kw.isEmpty = false := by
      cases kw with
      | nil => exact absurd rfl hne
      | cons a as => rfl
    simp only [Rage.resolveArgs, hemp, Bool.false_eq_true, if_false]
    clear hne hemp
    induction kw generalizing pos with
    | nil => simp at hfind
    | cons q qs ih =>
      obtain ⟨nq, vq⟩ := q
      rw [List.find?_cons] at hfind
      by_cases hc : ps.contains nq = true
      · rw [show (!ps.contains (nq, vq).1) = false by simp only [hc, Bool.not_true]] at hfind
        dsimp only at hfind
        have hidx : Rage.listIndexOf ps nq ≠ none := by
          rw [Rage.listIndexOf]
          intro hnone
          rw [listIndexOfGo_none_iff ps nq 0] at hnone
          rw [hc] at hnone
          exact absurd hnone (by simp)
        rcases hio : Rage.listIndexOf ps nq with _ | idx
        · exact absurd hio hidx
        · simp only [Rage.resolveArgsGo, hio]
          exact ih _ hfind
      · have hcf : ps.contains nq = false := by
          cases hx : ps.contains nq with
          | true => exact absurd hx hc
          | false => rfl
        rw [show (!ps.contains (nq, vq).1) = true by simp only [hcf, Bool.not_false]] at hfind
        dsimp only at hfind
        rw [Option.some.injEq, Prod.mk.injEq] at hfind
        obtain ⟨hn, hv⟩ := hfind
        subst hn
        have hnone : Rage.listIndexOf ps nq = none := by
          rw [Rage.listIndexOf, listIndexOfGo_none_iff ps nq 0]
          exact hcf
        simp [Rage.resolveArgsGo, hnone]
  · intro pos kw hne
    have : kw.isEmpty = false := by
      cases kw with
      | nil => exact absurd rfl hne
      | cons a as => rfl
    simp [Rage.resolveArgs, this]

theorem C7_resolveArgs_keyword_behavior_witness :
    (∃ args, Rage.resolveArgs [] [("end", .vnum 2)] (Rage.BUILTIN_PARAMS "slice") =
      .ok args)
    ∧ Rage.resolveArgs [] [("bogus", .vnum 2)] (Rage.BUILTIN_PARAMS "slice") =
        .error "Unknown keyword argument: bogus"
    ∧ Rage.resolveArgs [.vnum 1] [("bogus", .vnum 2)] (Rage.BUILTIN_PARAMS "abs") =
        .ok [.vnum 1, .vnum 2] := by
  refine ⟨?_, ?_, ?_⟩
  · exact C7_resolveArgs_keyword_behavior.1 [] [("end", .vnum 2)]
      ["arr", "start", "end"]
      (by intro p hp; rw [List.mem_singleton] at hp; subst hp; rfl)
  · exact C7_resolveArgs_keyword_behavior.2.1 [] [("bogus", .vnum 2)]
      ["arr", "start", "end"] "bogus" (.vnum 2) rfl
  · exact C7_resolveArgs_keyword_behavior.2.2 [.vnum 1] [("bogus", .vnum 2)]
      (by intro h; cases h)

theorem parsePattern_variant_enumName_none :
    ∀ (ts : List Lex.Token) (p : Rage.Pat) (rest : List Lex.Token),
      Rage.parsePattern ts = .ok (p, rest) →
      ∀ en vn bs, p = .variantP en vn bs → en = none := by
  intro ts p rest h en vn bs hp
  subst hp
  cases ts with
  | nil => simp [Rage.parsePattern] at h
  | cons t r0 =>
    simp only [Rage.parsePattern] at h
    repeat' split at h
    all_goals simp_all

/-- C8 counterexample: the claim asserts that some parseable pattern
produces a `VariantPattern` with a non-null `enumName`; in fact
`Parser.pattern()` constructs every variant pattern with `enumName: null`
(there is no qualifying syntax), so no token stream whatsoever parses to a
qualified variant pattern. -/
theorem C8_no_qualified_variant_pattern_parsed :
    ¬ ∃ (ts rest : List Lex.Token) (q vn : String) (bs : List String),
        Rage.parsePattern ts = .ok (.variantP (some q) vn bs, rest) := by
  rintro ⟨ts, rest, q, vn, bs, h⟩
  have hq := parsePattern_variant_enumName_none ts _ rest h (some q) vn bs rfl
  cases hq

/-- C8 (amended): the pattern grammar accepts variant patterns
`Name(binding, …)` — e.g. the tokens `Run ( s )` parse to
`VariantPattern(null, "Run", ["s"])` — but offers no qualifying syntax:
every parsed variant pattern carries `enumName = null`.  At match time
`matchPattern` nevertheless honours a qualifier: a variant pattern whose
`enumName` is non-null matches only an `EnumVariant` whose enum name
equals that qualifier (and whose variant name matches). -/
theorem C8_pattern_grammar_and_qualified_match :
    (Rage.parsePattern
        [{ ttype := "IDENTIFIER", lexeme := "Run", lit := .nolit, line := 1 },
         { ttype := "LPAREN", lexeme := "(", lit := .nolit, line := 1 },
         { ttype := "IDENTIFIER", lexeme := "s", lit := .nolit, line := 1 },
         { ttype := "RPAREN", lexeme := ")", lit := .nolit, line := 1 }] =
      .ok (.variantP none "Run" ["s"], []))
    ∧ (∀ (ts : List Lex.Token) (p : Rage.Pat) (rest : List Lex.Token),
        Rage.parsePattern ts = .ok (p, rest) →
        ∀ en vn bs, p = .variantP en vn bs → en = none)
    ∧ (∀ (q vn : String) (bs : List String) (v : Rage.Value)
        (binds : List (String × Rage.Value)),
        Rage.matchPattern (.variantP (some q) vn bs) v = some binds →
        ∃ data, v = .venumvar q vn data) := by
  refine ⟨rfl, parsePattern_variant_enumName_none, ?_⟩
  intro q vn bs v binds h
  cases v <;> simp only [Rage.matchPattern] at h <;> try cases h
  case venumvar ven vvn data =>
    split at h
    · cases h
    · split at h
      · cases h
      · rename_i h1 h2
        have hvvn : vvn = vn := by
          by_cases hx : vvn = vn
          · exact hx
          · exact absurd (by simp [hx]) h1
        have hven : ven = q := by
          by_cases hx : ven = q
          · exact hx
          · exact absurd (by simp [hx]) h2
        subst hvvn
        subst hven
        exact ⟨data, rfl⟩

theorem C8_pattern_grammar_and_qualified_match_witness :
    (∃ data, (Rage.Value.venumvar "Status" "Run" [("speed", .vnum 5)]) =
        .venumvar "Status" "Run" data)
    ∧ (none : Option String) = none := by
  constructor
  · exact C8_pattern_grammar_and_qualified_match.2.2 "Status" "Run" ["s"]
      (.venumvar "Status" "Run" [("speed", .vnum 5)]) [("s", .vnum 5)] rfl
  · exact C8_pattern_grammar_and_qualified_match.2.1
      [{ ttype := "IDENTIFIER", lexeme := "Run", lit := .nolit, line := 1 },
       { ttype := "LPAREN", lexeme := "(", lit := .nolit, line := 1 },
       { ttype := "IDENTIFIER", lexeme := "s", lit := .nolit, line := 1 },
       { ttype := "RPAREN", lexeme := ")", lit := .nolit, line := 1 }]
      (.variantP none "Run" ["s"]) [] rfl none "Run" ["s"] rfl

theorem scanToken_error_form :
    ∀ (line : Nat) (c : Char) (rest : List Char) (msg : String),
      Lex.scanToken line c rest = .error msg →
      ∃ n : Nat, msg = "Unterminated string at line " ++ toString n := by
  intro line c rest msg h
  unfold Lex.scanToken at h
  split at h
  · split at h
    · rw [Except.error.injEq] at h
      exact ⟨_, h.symm⟩
    · cases h
  · cases h

theorem tokenizeGo_error_form :
    ∀ (fuel line : Nat) (cs : List Char) (msg : String),
      cs.length < fuel →
      Lex.tokenizeGo fuel line cs = .error msg →
      ∃ n : Nat, msg = "Unterminated string at line " ++ toString n := by
  intro fuel
  induction fuel with
  | zero => intro line cs msg hlt h; exact absurd hlt (Nat.not_lt_zero _)
  | succ fuel ih =>
    intro line cs msg hlt h
    cases cs with
    | nil => cases h
    | cons c rest =>
      simp only [Lex.tokenizeGo] at h
      cases hst : Lex.scanToken line c rest with
      | error e =>
        rw [hst] at h
        dsimp only at h
        rw [Except.error.injEq] at h
        subst h
        exact scanToken_error_form line c rest e hst
      | ok res =>
        obtain ⟨ts, line2, k⟩ := res
        rw [hst] at h
        dsimp only at h
        cases hrec : Lex.tokenizeGo fuel line2 (rest.drop k) with
        | error e =>
          rw [hrec] at h
          dsimp only at h
          rw [Except.error.injEq] at h
          subst h
          have hlen : (rest.drop k).length < fuel := by
            have h1 : (rest.drop k).length ≤ rest.length := by
              simp [List.length_drop]
            have h2 : rest.length < fuel := Nat.lt_of_succ_lt_succ hlt
            exact Nat.lt_of_le_of_lt h1 h2
          exact ih line2 (rest.drop k) e hlen hrec
        | ok more => rw [hrec] at h; dsimp only at h; cases h

/-- C9 counterexample: in the source `"a⏎b` the opening double quote sits
on line 1 and the string runs to end of input.  `tokenize()` raises
`Unterminated string at line 2`: the scan loop advances the line counter
past the newline inside the string before throwing, so the reported line
is the one reached at end of input, not the line the literal started on
(which would read `Unterminated string at line 1`). -/
theorem C9_unterminated_string_reports_final_line :
    Lex.tokenize "\"a\nb" = .error "Unterminated string at line 2"
    ∧ "Unterminated string at line 2" ≠ "Unterminated string at line 1" :=
  ⟨rfl, by decide⟩

/-- C9 (amended): an unterminated string is a fatal lexing error whose
message reports the lexer's current line when end of input is reached
inside the string (this equals the starting line only when the string
spans no newline); and the unterminated-string error is the **only** error
`tokenize()` ever raises — every error message has the form
`Unterminated string at line n` — while unrecognized characters such as
`@` are silently skipped. -/
theorem C9_lexer_error_behavior :
    (∀ (s msg : String), Lex.tokenize s = .error msg →
      ∃ n : Nat, msg = "Unterminated string at line " ++ toString n)
    ∧ Lex.tokenize "@" =
        .ok [{ ttype := "EOF", lexeme := "", lit := .nolit, line := 1 }]
    ∧ Lex.tokenize "\"ab" = .error ("Unterminated string at line " ++ toString 1) := by
  refine ⟨?_, rfl, rfl⟩
  intro s msg h
  exact tokenizeGo_error_form (s.length + 1) 1 s.data msg (Nat.lt_succ_self _) h

theorem C9_lexer_error_behavior_witness :
    ∃ n : Nat,
      "Unterminated string at line 2" = "Unterminated string at line " ++ toString n :=
  C9_lexer_error_behavior.1 "\"a\nb" "Unterminated string at line 2" rfl

/-- C5: the recursive support check terminates on every grid — the
embedding realizes `isSupported` as a total function whose recursion
descends one row per call — and the cycle guard behaves as specified: a
position that is revisited while already on the checking stack is reported
unsupported.  Moreover the fixed-point simulation of `process()` performs
at most `height × width` full sweeps: the sweep counter never exceeds that
bound. -/
theorem C5_cycle_guard_and_sweep_bound :
    (∀ (g : Falling.Grid) (w : Nat) (f : Option Nat) (fuel : Nat)
        (stk : List (Nat × Nat)) (r c : Nat),
      (r, c) ∈ stk → Falling.isSupportedAux g w f fuel stk r c = false)
    ∧ (∀ s : List Char,
        Falling.processIterations s ≤
          (Falling.buildGrid s).length *
            Falling.gridWidth (Falling.splitLines s)) := by
  constructor
  · intro g w f fuel stk r c hmem
    cases fuel with
    | zero => rfl
    | succ fuel => simp [Falling.isSupportedAux, hmem]
  · have hloop : ∀ (fuel : Nat) (g : Falling.Grid) (w f : Nat),
        (Falling.processLoop fuel g w f).2 ≤ fuel := by
      intro fuel
      induction fuel with
      | zero => intro g w f; simp [Falling.processLoop]
      | succ fuel ih =>
        intro g w f
        simp only [Falling.processLoop]
        split
        · exact Nat.succ_le_succ (ih _ _ _)
        · exact Nat.succ_le_succ (Nat.zero_le _)
    intro s
    unfold Falling.processIterations Falling.processCounted
    simp only []
    cases hf : Falling.findFoundation (Falling.buildGrid s) with
    | none => simp
    | some f => simpa using hloop _ _ _ _

theorem C5_cycle_guard_and_sweep_bound_witness :
    Falling.isSupportedAux [['x']] 1 (some 0) 5 [(0, 0)] 0 0 = false :=
  C5_cycle_guard_and_sweep_bound.1 [['x']] 1 (some 0) 5 [(0, 0)] 0 0
    (List.mem_singleton.mpr rfl)

theorem sweepRow_unchanged_eq :
    ∀ (g : Falling.Grid) (w f r : Nat) (g2 : Falling.Grid),
      Falling.sweepRow g w f r = (g2, false) →
      g2 = g ∧ ∀ c, c < w → Falling.cellAt g r c ≠ ' ' →
        Falling.isSupported g w (some f) r c = true := by
  intro g w f r g2 h
  unfold Falling.sweepRow at h
  dsimp only at h
  split at h
  · rename_i hemp
    rw [Prod.mk.injEq] at h
    obtain ⟨hg, -⟩ := h
    subst hg
    refine ⟨rfl, ?_⟩
    intro c hcw hnb
    rw [List.isEmpty_iff, List.map_eq_nil_iff, List.filter_eq_nil_iff] at hemp
    have hc := hemp c (List.mem_range.mpr hcw)
    simp only [Bool.and_eq_true, bne_iff_ne, Bool.not_eq_true'] at hc
    cases hss : Falling.isSupported g w (some f) r c with
    | true => rfl
    | false => exact absurd ⟨hnb, hss⟩ hc
  · cases h

theorem sweepDown_unchanged_eq :
    ∀ (r : Nat) (g : Falling.Grid) (w f : Nat) (g2 : Falling.Grid),
      Falling.sweepDown r g w f = (g2, false) →
      g2 = g ∧ ∀ r2, r2 ≤ r → ∀ c, c < w → Falling.cellAt g r2 c ≠ ' ' →
        Falling.isSupported g w (some f) r2 c = true := by
  intro r
  induction r with
  | zero =>
    intro g w f g2 h
    obtain ⟨hg, hsup⟩ := sweepRow_unchanged_eq g w f 0 g2 h
    exact ⟨hg, fun r2 hr2 => by
      have : r2 = 0 := Nat.le_zero.mp hr2
      subst this
      exact hsup⟩
  | succ r ih =>
    intro g w f g2 h
    simp only [Falling.sweepDown] at h
    rw [Prod.mk.injEq] at h
    obtain ⟨hg, hor⟩ := h
    obtain ⟨h1, h2⟩ := Bool.or_eq_false_iff.mp hor
    have hrow := (Prod.mk.eta (p := Falling.sweepRow g w f (r + 1))).symm
    rw [h1] at hrow
    obtain ⟨hga, hsupa⟩ := sweepRow_unchanged_eq g w f (r + 1) _ hrow
    rw [hga] at hg h2
    have hdown := (Prod.mk.eta (p := Falling.sweepDown r g w f)).symm
    rw [h2] at hdown
    obtain ⟨hgb, hsupb⟩ := ih g w f _ hdown
    rw [hgb] at hg
    subst hg
    refine ⟨rfl, ?_⟩
    intro r2 hr2 c hcw hnb
    by_cases hr2e : r2 = r + 1
    · subst hr2e
      exact hsupa c hcw hnb
    · exact hsupb r2 (Nat.lt_succ_iff.mp (Nat.lt_of_le_of_ne hr2 hr2e)) c hcw hnb

theorem sweep_unchanged_eq :
    ∀ (g : Falling.Grid) (w f : Nat) (g2 : Falling.Grid),
      Falling.sweep g w f = (g2, false) →
      g2 = g ∧ ∀ r, r < f → ∀ c, c < w → Falling.cellAt g r c ≠ ' ' →
        Falling.isSupported g w (some f) r c = true := by
  intro g w f g2 h
  cases f with
  | zero =>
    simp only [Falling.sweep] at h
    rw [Prod.mk.injEq] at h
    exact ⟨h.1.symm, fun r hr => absurd hr (Nat.not_lt_zero r)⟩
  | succ fr =>
    simp only [Falling.sweep] at h
    obtain ⟨hg, hsup⟩ := sweepDown_unchanged_eq fr g w (fr + 1) g2 h
    exact ⟨hg, fun r hr => hsup r (Nat.lt_succ_iff.mp hr)⟩

theorem processLoop_exit_fixpoint :
    ∀ (fuel : Nat) (g : Falling.Grid) (w f : Nat) (g2 : Falling.Grid) (k : Nat),
      Falling.processLoop fuel g w f = (g2, k) → k < fuel →
      Falling.sweep g2 w f = (g2, false) := by
  intro fuel
  induction fuel with
  | zero => intro g w f g2 k h hk; exact absurd hk (Nat.not_lt_zero k)
  | succ fuel ih =>
    intro g w f g2 k h hk
    simp only [Falling.processLoop] at h
    split at h
    · rename_i hch
      rw [Prod.mk.injEq] at h
      obtain ⟨hg, hkeq⟩ := h
      have hk2 : (Falling.processLoop fuel (Falling.sweep g w f).1 w f).2 < fuel := by
        omega
      have hrec := (Prod.mk.eta
        (p := Falling.processLoop fuel (Falling.sweep g w f).1 w f)).symm
      rw [hg] at hrec
      exact ih (Falling.sweep g w f).1 w f g2 _ hrec hk2
    · rename_i hch
      rw [Prod.mk.injEq] at h
      obtain ⟨hg, -⟩ := h
      have hch2 : (Falling.sweep g w f).2 = false := by
        cases hx : (Falling.sweep g w f).2 with
        | false => rfl
        | true => exact absurd hx hch
      have hsw := (Prod.mk.eta (p := Falling.sweep g w f)).symm
      rw [hch2] at hsw
      obtain ⟨hga, -⟩ := sweep_unchanged_eq g w f _ hsw
      have hfix : Falling.sweep g w f = (g, false) := by rw [hsw, hga]
      subst hg
      rw [hga]
      exact hfix

/-- C4 counterexample: for the source `x⏎a  #` the foundation is row 1 and
the cell `x` at (0,0) sits strictly above it, directly over the
non-foundation character `a` on the foundation row.  Every sweep clears
`x` and puts it straight back (its landing row is its own row), so the
loop burns through all height × width iterations and `process()` returns
the source unchanged — with `x` non-blank, strictly above the foundation
row, and **not** supported. -/
theorem C4_grounding_invariant_fails :
    Falling.processStr "x\na  #" = "x\na  #"
    ∧ Falling.findFoundation Falling.flapGrid = some 1
    ∧ Falling.flapFinal = Falling.flapGrid
    ∧ Falling.cellAt Falling.flapFinal 0 0 = 'x'
    ∧ Falling.isSupported Falling.flapFinal Falling.flapWidth (some 1) 0 0 = false := by
  refine ⟨by decide, by decide, by decide, by decide, by decide⟩

/-- C4 (amended): the grounding invariant holds exactly when the
fixed-point loop stops because a full sweep made no change: a grid on
which `sweep` reports no change has every non-blank cell strictly above
the foundation row (within the grid's width) supported, and whenever
`processLoop` finishes in strictly fewer sweeps than its `height × width`
budget, its final grid is such a fixpoint, so the invariant holds for the
grid `process()` produces.  (A run that exhausts the budget can leave
unsupported cells — see the counterexample.) -/
theorem C4_fixpoint_grounding :
    (∀ (g : Falling.Grid) (w f : Nat) (g2 : Falling.Grid),
      Falling.sweep g w f = (g2, false) →
      g2 = g ∧ ∀ r, r < f → ∀ c, c < w → Falling.cellAt g r c ≠ ' ' →
        Falling.isSupported g w (some f) r c = true)
    ∧ (∀ (fuel : Nat) (g : Falling.Grid) (w f : Nat) (g2 : Falling.Grid) (k : Nat),
      Falling.processLoop fuel g w f = (g2, k) → k < fuel →
      ∀ r, r < f → ∀ c, c < w → Falling.cellAt g2 r c ≠ ' ' →
        Falling.isSupported g2 w (some f) r c = true) := by
  refine ⟨sweep_unchanged_eq, ?_⟩
  intro fuel g w f g2 k h hk r hr c hcw hnb
  have hfix := processLoop_exit_fixpoint fuel g w f g2 k h hk
  obtain ⟨-, hsup⟩ := sweep_unchanged_eq g2 w f g2 hfix
  exact hsup r hr c hcw hnb

theorem C4_fixpoint_grounding_witness :
    Falling.isSupported (Falling.buildGrid ("x\n###".data)) 3 (some 1) 0 0 = true :=
  (C4_fixpoint_grounding.1 (Falling.buildGrid ("x\n###".data)) 3 1
      (Falling.buildGrid ("x\n###".data)) (by decide)).2
    0 (by decide) 0 (by decide) (by decide)

theorem sweepRow_of_supported :
    ∀ (g : Falling.Grid) (w f r : Nat),
      (∀ c, c < w → Falling.cellAt g r c ≠ ' ' →
        Falling.isSupported g w (some f) r c = true) →
      Falling.sweepRow g w f r = (g, false) := by
  intro g w f r hsup
  unfold Falling.sweepRow
  dsimp only
  have hfil : (List.range w).filter
      (fun c => Falling.cellAt g r c != ' ' && !Falling.isSupported g w (some f) r c) = [] := by
    rw [List.filter_eq_nil_iff]
    intro c hc
    have hcw := List.mem_range.mp hc
    simp only [Bool.and_eq_true, bne_iff_ne, Bool.not_eq_true', not_and]
    intro hnb
    simp [hsup c hcw hnb]
  rw [hfil]
  rfl

theorem sweepDown_of_supported :
    ∀ (r : Nat) (g : Falling.Grid) (w f : Nat),
      (∀ r2, r2 ≤ r → ∀ c, c < w → Falling.cellAt g r2 c ≠ ' ' →
        Falling.isSupported g w (some f) r2 c = true) →
      Falling.sweepDown r g w f = (g, false) := by
  intro r
  induction r with
  | zero =>
    intro g w f hsup
    exact sweepRow_of_supported g w f 0 (hsup 0 (Nat.le_refl 0))
  | succ r ih =>
    intro g w f hsup
    simp only [Falling.sweepDown]
    rw [sweepRow_of_supported g w f (r + 1) (hsup (r + 1) (Nat.le_refl _))]
    rw [ih g w f (fun r2 hr2 => hsup r2 (Nat.le_succ_of_le hr2))]
    rfl

theorem sweep_of_supported :
    ∀ (g : Falling.Grid) (w f : Nat),
      (∀ r, r < f → ∀ c, c < w → Falling.cellAt g r c ≠ ' ' →
        Falling.isSupported g w (some f) r c = true) →
      Falling.sweep g w f = (g, false) := by
  intro g w f hsup
  cases f with
  | zero => rfl
  | succ fr =>
    simp only [Falling.sweep]
    exact sweepDown_of_supported fr g w (fr + 1)
      (fun r2 hr2 => hsup r2 (Nat.lt_succ_of_le hr2))

theorem splitLines_ne_nil : ∀ l : List Char, Falling.splitLines l ≠ [] := by
  intro l
  cases l with
  | nil => simp [Falling.splitLines]
  | cons c rest =>
    simp only [Falling.splitLines]
    cases hs : Falling.splitLines rest with
    | nil => simp
    | cons g gs =>
      by_cases hc : c = '\n' <;> simp [hc]

theorem joinLines_cons_cons :
    ∀ (c : Char) (g : List Char) (gs : List (List Char)),
      Falling.joinLines ((c :: g) :: gs) = c :: Falling.joinLines (g :: gs) := by
  intro c g gs
  cases gs with
  | nil => rfl
  | cons g2 gs2 => simp [Falling.joinLines]

theorem joinLines_splitLines :
    ∀ l : List Char, Falling.joinLines (Falling.splitLines l) = l := by
  intro l
  induction l with
  | nil => rfl
  | cons c rest ih =>
    simp only [Falling.splitLines]
    cases hs : Falling.splitLines rest with
    | nil => exact absurd hs (splitLines_ne_nil rest)
    | cons g gs =>
      dsimp only
      rw [hs] at ih
      by_cases hc : c = '\n'
      · subst hc
        simp only [if_pos rfl]
        simpa [Falling.joinLines] using ih
      · rw [if_neg hc, joinLines_cons_cons, ih]

theorem dropWhile_replicate_space :
    ∀ (k : Nat) (xs : List Char),
      List.dropWhile Falling.isJsSpace (List.replicate k ' ' ++ xs) =
        List.dropWhile Falling.isJsSpace xs := by
  intro k
  induction k with
  | zero => intro xs; rfl
  | succ k ih =>
    intro xs
    rw [List.replicate_succ, List.cons_append, List.dropWhile_cons]
    simp only [show Falling.isJsSpace ' ' = true from rfl, if_true]
    exact ih xs

theorem trimEndRow_padRow :
    ∀ (w : Nat) (l : List Char), Falling.noTrailWs l = true →
      Falling.trimEndRow (Falling.padRow w l) = l := by
  intro w l hnt
  unfold Falling.trimEndRow Falling.padRow
  rw [List.reverse_append, List.reverse_replicate, dropWhile_replicate_space]
  cases hrev : l.reverse with
  | nil =>
    have hl : l = [] := by simpa using congrArg List.reverse hrev
    subst hl
    rfl
  | cons c t =>
    have hlast : l.getLast? = some c := by
      rw [← List.head?_reverse, hrev]
      rfl
    have hc : Falling.isJsSpace c = false := by
      unfold Falling.noTrailWs at hnt
      rw [hlast] at hnt
      simpa using hnt
    rw [List.dropWhile_cons]
    simp only [hc, Bool.false_eq_true, if_false]
    rw [← hrev, List.reverse_reverse]

theorem gridToString_buildGrid :
    ∀ p : List Char, (∀ l ∈ Falling.splitLines p, Falling.noTrailWs l = true) →
      Falling.gridToString (Falling.buildGrid p) = p := by
  intro p h
  unfold Falling.gridToString Falling.buildGrid
  rw [List.map_map]
  have hmap : (Falling.splitLines p).map
      (Falling.trimEndRow ∘ Falling.padRow (Falling.gridWidth (Falling.splitLines p))) =
      Falling.splitLines p := by
    conv_rhs => rw [← List.map_id (Falling.splitLines p)]
    apply List.map_congr_left
    intro a ha
    exact trimEndRow_padRow _ a (h a ha)
  rw [hmap]
  exact joinLines_splitLines p

theorem length_le_foldl_max :
    ∀ (lines : List (List Char)) (acc : Nat),
      acc ≤ lines.foldl (fun m l => max m l.length) acc := by
  intro lines
  induction lines with
  | nil => intro acc; exact Nat.le_refl acc
  | cons hd tl ih =>
    intro acc
    exact Nat.le_trans (Nat.le_max_left acc hd.length) (ih (max acc hd.length))

theorem length_le_gridWidth :
    ∀ (lines : List (List Char)) (l : List Char), l ∈ lines →
      l.length ≤ Falling.gridWidth lines := by
  have haux : ∀ (lines : List (List Char)) (acc : Nat) (l : List Char), l ∈ lines →
      l.length ≤ lines.foldl (fun m l => max m l.length) acc := by
    intro lines
    induction lines with
    | nil => intro acc l hl; cases hl
    | cons hd tl ih =>
      intro acc l hl
      cases hl with
      | head =>
        exact Nat.le_trans (Nat.le_max_right acc hd.length)
          (length_le_foldl_max tl (max acc hd.length))
      | tail _ hmem => exact ih (max acc hd.length) l hmem
  intro lines l hl
  exact haux lines 0 l hl

theorem findFoundationGo_spec :
    ∀ (g : Falling.Grid) (n f : Nat), Falling.findFoundationGo g n = some f →
      Falling.rowHasFoundation (g.getD f []) false = true := by
  intro g n
  induction n with
  | zero => intro f h; cases h
  | succ n ih =>
    intro f h
    simp only [Falling.findFoundationGo] at h
    split at h
    · rename_i hrow
      cases h
      exact hrow
    · exact ih f h

theorem gridWidth_pos_of_foundation :
    ∀ (s : List Char) (f : Nat),
      Falling.findFoundation (Falling.buildGrid s) = some f →
      0 < Falling.gridWidth (Falling.splitLines s) := by
  intro s f h
  by_contra hw
  have hw0 : Falling.gridWidth (Falling.splitLines s) = 0 := Nat.eq_zero_of_not_pos hw
  have hrow := findFoundationGo_spec (Falling.buildGrid s) (Falling.buildGrid s).length f h
  have hempty : (Falling.buildGrid s).getD f [] = [] := by
    cases hg : (Falling.buildGrid s)[f]? with
    | none => simp [List.getD, hg]
    | some row =>
      have hmem : row ∈ Falling.buildGrid s := List.getElem?_mem hg
      unfold Falling.buildGrid at hmem
      rw [List.mem_map] at hmem
      obtain ⟨l, hl, hrow2⟩ := hmem
      have hlen : l.length = 0 := by
        have := length_le_gridWidth (Falling.splitLines s) l hl
        omega
      have hlnil : l = [] := List.eq_nil_of_length_eq_zero hlen
      subst hlnil
      have : row = [] := by
        rw [← hrow2]
        simp [Falling.padRow, hw0]
      simp [List.getD, hg, this]
  rw [hempty] at hrow
  cases hrow

/-- C3 counterexample: the preprocessor is not idempotent.  For
`#⏎  #⏎⏎a` the unsupported upper `#` falls past the foundation row
(landing on the stray `a` below it), so re-parsing the output finds a
**lower** foundation row, and a second run moves the old foundation `#`
out: `process(process(s)) ≠ process(s)`. -/
theorem C3_process_not_idempotent :
    Falling.processStr "#\n  #\n\na" = "\n  #\n#\na"
    ∧ Falling.processStr "\n  #\n#\na" = "\n\n#\na"
    ∧ Falling.processStr (Falling.processStr "#\n  #\n\na") ≠
        Falling.processStr "#\n  #\n\na" := by
  refine ⟨by decide, by decide, by decide⟩

/-- C3 (amended): running the preprocessor is the identity on every
source whose grid is already at a fixpoint: if the source has a
foundation row, every non-blank cell strictly above it is supported, and
no line carries trailing whitespace (every `process` output is trimmed),
then `process p = p`.  Hence re-running the preprocessor on its own
output yields the same output exactly when the output re-parses to such a
fixpoint; this can fail — a character may land on or below the
foundation row and shift the recomputed foundation (see the
counterexample). -/
theorem C3_process_fixpoint_identity :
    ∀ (p : List Char) (f : Nat),
      Falling.findFoundation (Falling.buildGrid p) = some f →
      Falling.allSupportedAbove (Falling.buildGrid p)
        (Falling.gridWidth (Falling.splitLines p)) f = true →
      (∀ l ∈ Falling.splitLines p, Falling.noTrailWs l = true) →
      Falling.process p = p := by
  intro p f hf hall htrim
  have hsup : ∀ r, r < f → ∀ c, c < Falling.gridWidth (Falling.splitLines p) →
      Falling.cellAt (Falling.buildGrid p) r c ≠ ' ' →
      Falling.isSupported (Falling.buildGrid p)
        (Falling.gridWidth (Falling.splitLines p)) (some f) r c = true := by
    intro r hr c hc hnb
    unfold Falling.allSupportedAbove at hall
    rw [List.all_eq_true] at hall
    have h1 := hall r (List.mem_range.mpr hr)
    rw [List.all_eq_true] at h1
    have h2 := h1 c (List.mem_range.mpr hc)
    rw [Bool.or_eq_true] at h2
    cases h2 with
    | inl hx => exact absurd (by simpa using hx) hnb
    | inr hx => exact hx
  have hsw := sweep_of_supported (Falling.buildGrid p)
    (Falling.gridWidth (Falling.splitLines p)) f hsup
  have hh : 0 < (Falling.buildGrid p).length := by
    unfold Falling.buildGrid
    rw [List.length_map]
    exact List.length_pos.mpr (splitLines_ne_nil p)
  have hw := gridWidth_pos_of_foundation p f hf
  have hfuel : 0 < (Falling.buildGrid p).length *
      Falling.gridWidth (Falling.splitLines p) := Nat.mul_pos hh hw
  obtain ⟨m, hm⟩ := Nat.exists_eq_succ_of_ne_zero (Nat.pos_iff_ne_zero.mp hfuel)
  unfold Falling.process Falling.processCounted
  simp only []
  rw [hf]
  dsimp only
  rw [hm]
  simp only [Falling.processLoop]
  rw [hsw]
  dsimp only
  exact gridToString_buildGrid p htrim

theorem C3_process_fixpoint_identity_witness :
    Falling.process ("x\n###".data) = "x\n###".data :=
  C3_process_fixpoint_identity ("x\n###".data) 1 (by decide) (by decide)
    (by decide)
